import Mathlib

/-!
Shallow embedding of the kava `hard` module deposit/withdraw keeper
(`src/x/hard/keeper/deposit.go`, `src/x/hard/types/params.go`).

Conventions of the embedding:
* `sdk.Dec` is modelled as exact `ℚ` (the spec describes the values as
  rationals with at least 18 fractional digits); `sdk.Int` as `ℤ`.
* `sdk.Coins` is modelled as a list of `Coin` with pointwise arithmetic
  that keeps denominations unique and drops zero amounts, matching the
  normal form `sdk.Coins` maintains (sorted unique denoms, no zeros).
* Store reads/writes (`GetDeposit`/`SetDeposit`, interest factors, module
  and account balances) become lookups/updates in a `HardState` record.
* Go functions returning `error` become `Option HardError`; because the
  keeper mutates the store before some error returns, operations return
  `HardState × Option HardError` (the state as left by the call).
* Keeper code that is not part of the two source files (the LTV/risk
  index machinery, Borrow/Repay, the borrow-side sync, the transfer
  primitive) is modelled from the spec; each such definition carries a
  doc comment starting with `Modelled from the spec:`.
-/

abbrev Denom := String

abbrev Addr := String

/-- One `sdk.Coin`: a denomination together with an integer amount. -/
structure Coin where
  denom : Denom
  amount : Int
deriving DecidableEq

abbrev Coins := List Coin

/-- The list of denominations appearing in a coin list. -/
def Coins.denomList (cs : Coins) : List Denom := cs.map Coin.denom

/-- `sdk.Coins.AmountOf`: the amount of the first coin with the given denom
(0 when absent; in normal form the denom appears at most once). -/
def Coins.amountOf (cs : Coins) (d : Denom) : Int :=
  match cs.find? (fun c => c.denom == d) with
  | some c => c.amount
  | none => 0

/-- Build a normal-form coin list from an amount function and a denom list,
dropping zero amounts.  `Coins.add` below instantiates this shape. -/
def Coins.ofFun (v : Denom → Int) (l : List Denom) : Coins :=
  l.filterMap (fun d => if v d = 0 then none else some ⟨d, v d⟩)

/-- `sdk.Coins.Add`: pointwise sum, dropping zero results. -/
def Coins.add (a b : Coins) : Coins :=
  Coins.ofFun (fun d => Coins.amountOf a d + Coins.amountOf b d)
    ((Coins.denomList a ++ Coins.denomList b).dedup)

/-- Negate every amount (used to express subtraction pointwise). -/
def Coins.negate (cs : Coins) : Coins := cs.map (fun c => ⟨c.denom, -c.amount⟩)

/-- `sdk.Coins.SafeSub`: the pointwise difference together with the flag
telling whether any resulting amount is negative. -/
def Coins.safeSub (a b : Coins) : Coins × Bool :=
  let diff := Coins.add a (Coins.negate b)
  (diff, diff.any (fun c => decide (c.amount < 0)))

/-- `sdk.Coins.Sub` (callers have already checked non-negativity). -/
def Coins.sub (a b : Coins) : Coins := (Coins.safeSub a b).1

/-- `sdk.Coins.IsEqual`: the two lists agree pointwise on every denom. -/
def Coins.isEqual (a b : Coins) : Bool :=
  (Coins.denomList a ++ Coins.denomList b).all
    (fun d => Coins.amountOf a d == Coins.amountOf b d)

/-- `sdk.Coins.DenomsSubsetOf`. -/
def Coins.denomsSubsetOf (a b : Coins) : Bool :=
  (Coins.denomList a).all (fun d => (Coins.denomList b).contains d)

/-- `sdk.Dec.TruncateInt`: round a rational toward zero. -/
def decTruncateInt (q : ℚ) : Int := if q < 0 then -⌊-q⌋ else ⌊q⌋

/-! ### Keyed association-list stores

The Cosmos KVStore accesses used by the keeper (`GetDeposit`/`SetDeposit`,
interest factors, account balances, ...) are modelled uniformly as lists
searched by a key projection. -/

def keyedGet {α : Type} (key : α → String) (l : List α) (k : String) : Option α :=
  l.find? (fun x => key x == k)

def keyedSet {α : Type} (key : α → String) (l : List α) (x : α) : List α :=
  if l.any (fun y => key y == key x) then
    l.map (fun y => if key y == key x then x else y)
  else
    l ++ [x]

def keyedRemove {α : Type} (key : α → String) (l : List α) (k : String) : List α :=
  l.filter (fun x => !(key x == k))

/-! ### Data model (`src/x/hard/types/params.go` and deposit/borrow records) -/

/-- `types.SupplyInterestFactor`: a denom with the account's snapshot of the
global supply interest factor at last sync. -/
structure SupplyInterestFactor where
  denom : Denom
  value : ℚ
deriving DecidableEq

abbrev SupplyInterestFactors := List SupplyInterestFactor

/-- `types.BorrowInterestFactor` (symmetric structure on the borrow side). -/
structure BorrowInterestFactor where
  denom : Denom
  value : ℚ
deriving DecidableEq

/-- `types.Deposit`: one record per account. -/
structure Deposit where
  depositor : Addr
  amount : Coins
  index : SupplyInterestFactors
deriving DecidableEq

/-- `types.Borrow`: one record per account (symmetric structure; its Go
declaration is not among the source files, shape mirrored from `Deposit`
per the spec's "symmetric structure using the global borrow interest
factor"). -/
structure Borrow where
  borrower : Addr
  amount : Coins
  index : List BorrowInterestFactor
deriving DecidableEq

/-- `types.BorrowLimit`. -/
structure BorrowLimit where
  hasMaxLimit : Bool
  maximumLimit : ℚ
  loanToValue : ℚ
deriving DecidableEq

/-- `types.InterestRateModel`. -/
structure InterestRateModel where
  baseRateAPY : ℚ
  baseMultiplier : ℚ
  kink : ℚ
  jumpMultiplier : ℚ
deriving DecidableEq

/-- `types.MoneyMarket`. -/
structure MoneyMarket where
  denom : Denom
  borrowLimit : BorrowLimit
  spotMarketID : String
  conversionFactor : Int
  interestRateModel : InterestRateModel
  reserveFactor : ℚ
  auctionSize : Int
  keeperRewardPercentage : ℚ
deriving DecidableEq

/-- A liquidity-provider schedule as used by `ValidateDeposit`
(`params.LiquidityProviderSchedules`, field `DepositDenom`).  Its type
declaration is absent from the source files — notably, the `Params` struct in
`src/x/hard/types/params.go` has no such field — so only the field that
`ValidateDeposit` reads is modelled here. -/
structure LiquidityProviderSchedule where
  depositDenom : Denom
deriving DecidableEq

/-- `types.Params` from `src/x/hard/types/params.go`, extended with the
`LiquidityProviderSchedules` field that `ValidateDeposit` in
`src/x/hard/keeper/deposit.go` dereferences (see `LiquidityProviderSchedule`). -/
structure Params where
  active : Bool
  moneyMarkets : List MoneyMarket
  checkLtvIndexCount : Int
  liquidityProviderSchedules : List LiquidityProviderSchedule
deriving DecidableEq

/-- Errors surfaced by the keeper operations. -/
inductive HardError where
  | invalidDepositDenom (d : Denom)
  | depositNotFound (a : Addr)
  | negativeBorrowedCoins
  | invalidWithdrawAmount
  | insufficientAccountFunds
  | insufficientModuleFunds
  | borrowExceedsAvailableBalance (d : Denom)
  | moneyMarketNotFound (d : Denom)
  | priceNotFound (m : String)
  | borrowNotFound (a : Addr)
  | exceedsOwedAmount (d : Denom)
  | insufficientBalanceForRepay (d : Denom)
  | borrowExceedsCap (d : Denom)
  | invalidBorrowAmount
deriving DecidableEq

/-- The persistent state the keeper reads and writes: the parameter and
KV stores of the `hard` module, plus the external balances moved by the
supply-keeper transfer primitive and the oracle prices consulted by the
spec-modelled solvency validator. -/
structure HardState where
  params : Params
  supplyInterestFactors : List (Denom × ℚ)
  borrowInterestFactors : List (Denom × ℚ)
  deposits : List Deposit
  borrows : List Borrow
  accountCoins : List (Addr × Coins)
  moduleCoins : Coins
  prices : List (String × ℚ)
  ltvIndex : List (ℚ × Addr)
  totalBorrowed : Coins
deriving DecidableEq

/-! ### Store accessors -/

/-- `Keeper.GetSupplyInterestFactor`. -/
def getSupplyInterestFactor (st : HardState) (d : Denom) : Option ℚ :=
  (keyedGet Prod.fst st.supplyInterestFactors d).map Prod.snd

/-- `Keeper.SetSupplyInterestFactor`. -/
def setSupplyInterestFactor (st : HardState) (d : Denom) (v : ℚ) : HardState :=
  { st with supplyInterestFactors := keyedSet Prod.fst st.supplyInterestFactors (d, v) }

/-- `Keeper.GetBorrowInterestFactor` (borrow-side mirror). -/
def getBorrowInterestFactor (st : HardState) (d : Denom) : Option ℚ :=
  (keyedGet Prod.fst st.borrowInterestFactors d).map Prod.snd

/-- `Keeper.GetMoneyMarket`: look the denom up among the configured money
markets. -/
def getMoneyMarket (st : HardState) (d : Denom) : Option MoneyMarket :=
  keyedGet MoneyMarket.denom st.params.moneyMarkets d

/-- `Keeper.GetDeposit`. -/
def getDeposit (st : HardState) (a : Addr) : Option Deposit :=
  keyedGet Deposit.depositor st.deposits a

/-- `Keeper.SetDeposit`. -/
def setDeposit (st : HardState) (dep : Deposit) : HardState :=
  { st with deposits := keyedSet Deposit.depositor st.deposits dep }

/-- `Keeper.DeleteDeposit`. -/
def deleteDeposit (st : HardState) (dep : Deposit) : HardState :=
  { st with deposits := keyedRemove Deposit.depositor st.deposits dep.depositor }

/-- `Keeper.GetBorrow`. -/
def getBorrow (st : HardState) (a : Addr) : Option Borrow :=
  keyedGet Borrow.borrower st.borrows a

/-- `Keeper.SetBorrow`. -/
def setBorrow (st : HardState) (b : Borrow) : HardState :=
  { st with borrows := keyedSet Borrow.borrower st.borrows b }

/-- `Keeper.DeleteBorrow`. -/
def deleteBorrow (st : HardState) (b : Borrow) : HardState :=
  { st with borrows := keyedRemove Borrow.borrower st.borrows b.borrower }

/-- The spendable balance of an account (`accountKeeper.GetAccount` +
`SpendableCoins`). -/
def getAccountCoins (st : HardState) (a : Addr) : Coins :=
  ((keyedGet Prod.fst st.accountCoins a).map Prod.snd).getD []

/-- Modelled from the spec: the transfer primitive `moveToPool`
(`supplyKeeper.SendCoinsFromAccountToModule`), failing on insufficient
spendable balance and otherwise moving the coins into the module pool. -/
def sendCoinsFromAccountToModule (st : HardState) (a : Addr) (coins : Coins) :
    Except HardError HardState :=
  let r := Coins.safeSub (getAccountCoins st a) coins
  if r.2 then .error .insufficientAccountFunds
  else .ok { st with
    accountCoins := keyedSet Prod.fst st.accountCoins (a, r.1),
    moduleCoins := Coins.add st.moduleCoins coins }

/-- Modelled from the spec: the transfer primitive `moveFromPool`
(`supplyKeeper.SendCoinsFromModuleToAccount`). -/
def sendCoinsFromModuleToAccount (st : HardState) (a : Addr) (coins : Coins) :
    Except HardError HardState :=
  let r := Coins.safeSub st.moduleCoins coins
  if r.2 then .error .insufficientModuleFunds
  else .ok { st with
    moduleCoins := r.1,
    accountCoins := keyedSet Prod.fst st.accountCoins
      (a, Coins.add (getAccountCoins st a) coins) }

/-! ### Per-account interest index lists -/

/-- Value of the first index entry for a denom (`deposit.Index[i].Value`
after the linear scan in `SyncSupplyInterest`). -/
def indexValue (idx : SupplyInterestFactors) (d : Denom) : Option ℚ :=
  (idx.find? (fun e => e.denom == d)).map SupplyInterestFactor.value

/-- Overwrite the value of the first index entry with the given denom
(`deposit.Index[foundAtIndex].Value = interestFactorValue`). -/
def indexSetValue : SupplyInterestFactors → Denom → ℚ → SupplyInterestFactors
  | [], _, _ => []
  | e :: rest, d, v =>
    if e.denom == d then ⟨e.denom, v⟩ :: rest else e :: indexSetValue rest d v

/-- Borrow-side mirror of `indexValue`. -/
def borrowIndexValue (idx : List BorrowInterestFactor) (d : Denom) : Option ℚ :=
  (idx.find? (fun e => e.denom == d)).map BorrowInterestFactor.value

/-- Borrow-side mirror of `indexSetValue`. -/
def borrowIndexSetValue : List BorrowInterestFactor → Denom → ℚ → List BorrowInterestFactor
  | [], _, _ => []
  | e :: rest, d, v =>
    if e.denom == d then ⟨e.denom, v⟩ :: rest else e :: borrowIndexSetValue rest d v

/-! ### SyncSupplyInterest (`src/x/hard/keeper/deposit.go` lines 126-165) -/

/-- The (current global factor or Go zero value) read by the sync loop:
`interestFactorValue, _ := k.GetSupplyInterestFactor(ctx, coin.Denom)`
ignores the found flag, so a missing factor reads as the zero `sdk.Dec`. -/
def supplyFactorOf (st : HardState) (d : Denom) : ℚ :=
  (getSupplyInterestFactor st d).getD 0

def borrowFactorOf (st : HardState) (d : Denom) : ℚ :=
  (getBorrowInterestFactor st d).getD 0

/-- One iteration of the `for _, coin := range deposit.Amount` loop in
`SyncSupplyInterest`: `amt` is the unmodified `deposit.Amount` the loop
ranges over, the accumulator carries the evolving index list and the
`totalNewInterest` coins. -/
def syncStep (st : HardState) (amt : Coins) (acc : SupplyInterestFactors × Coins)
    (c : Coin) : SupplyInterestFactors × Coins :=
  match indexValue acc.1 c.denom with
  | none =>
    -- first time the user has supplied this denom: append a fresh entry
    (acc.1 ++ [⟨c.denom, supplyFactorOf st c.denom⟩], acc.2)
  | some snap =>
    -- interest earned since the last index update, truncated toward zero
    let storedAmount : ℚ := (Coins.amountOf amt c.denom : ℚ)
    let interest : ℚ := storedAmount / snap * supplyFactorOf st c.denom - storedAmount
    (indexSetValue acc.1 c.denom (supplyFactorOf st c.denom),
     Coins.add acc.2 [⟨c.denom, decTruncateInt interest⟩])

/-- `Keeper.SyncSupplyInterest`: no-op when the account has no deposit;
otherwise walk the deposit's coins, accrue truncated interest for denoms
with an index entry, append entries for new denoms, add the accrued coins
to the deposit amount, and persist. -/
def syncSupplyInterest (st : HardState) (addr : Addr) : HardState :=
  match getDeposit st addr with
  | none => st
  | some dep =>
    let res := dep.amount.foldl (syncStep st dep.amount) (dep.index, [])
    setDeposit st { dep with amount := Coins.add dep.amount res.2, index := res.1 }

/-- Modelled from the spec: borrow-side step, mirror image of `syncStep`
(§4.1, "symmetric structure using the global borrow interest factor";
on the borrow side interest is added as additional debt). -/
def syncBorrowStep (st : HardState) (amt : Coins)
    (acc : List BorrowInterestFactor × Coins) (c : Coin) :
    List BorrowInterestFactor × Coins :=
  match borrowIndexValue acc.1 c.denom with
  | none =>
    (acc.1 ++ [⟨c.denom, borrowFactorOf st c.denom⟩], acc.2)
  | some snap =>
    let storedAmount : ℚ := (Coins.amountOf amt c.denom : ℚ)
    let interest : ℚ := storedAmount / snap * borrowFactorOf st c.denom - storedAmount
    (borrowIndexSetValue acc.1 c.denom (borrowFactorOf st c.denom),
     Coins.add acc.2 [⟨c.denom, decTruncateInt interest⟩])

/-- Modelled from the spec: `Keeper.SyncBorrowInterest`, the borrow-side
mirror of `SyncSupplyInterest` (invoked by Deposit/Withdraw before any
validation; not among the source files). -/
def syncBorrowInterest (st : HardState) (addr : Addr) : HardState :=
  match getBorrow st addr with
  | none => st
  | some bor =>
    let res := bor.amount.foldl (syncBorrowStep st bor.amount) (bor.index, [])
    setBorrow st { bor with amount := Coins.add bor.amount res.2, index := res.1 }

/-! ### Spec-modelled solvency validation and risk index (§4.2, §4.3) -/

/-- Modelled from the spec: the oracle price source (`price(assetID)`),
failing with PriceUnavailable when no price is posted. -/
def getPrice (st : HardState) (marketID : String) : Option ℚ :=
  (keyedGet Prod.fst st.prices marketID).map Prod.snd

/-- Modelled from the spec: USD value of a balance set, "using each asset's
conversion factor and oracle price (fails with PriceUnavailable if any
required asset has no active price)". -/
def getAssetValue (st : HardState) : Coins → Except HardError ℚ
  | [] => .ok 0
  | c :: rest =>
    match getAssetValue st rest with
    | .error e => .error e
    | .ok total =>
      match getMoneyMarket st c.denom with
      | none => .error (.moneyMarketNotFound c.denom)
      | some mm =>
        match getPrice st mm.spotMarketID with
        | none => .error (.priceNotFound mm.spotMarketID)
        | some price =>
          .ok (total + (c.amount : ℚ) / (mm.conversionFactor : ℚ) * price)

/-- Modelled from the spec: "The account's effective LTV limit is the
minimum max-LTV across all money markets represented in its deposit set". -/
def effectiveLtvLimit (st : HardState) : Coins → ℚ
  | [] => 1
  | c :: rest =>
    match getMoneyMarket st c.denom with
    | some mm => min mm.borrowLimit.loanToValue (effectiveLtvLimit st rest)
    | none => effectiveLtvLimit st rest

/-- Modelled from the spec: `Keeper.IsWithinValidLtvRange` /
`isWithinLtv(proposedDeposit, proposedBorrow)`: "Valid iff
total-borrow-value ≤ total-deposit-value × effective-LTV-limit, or iff
total-borrow-value is zero". -/
def isWithinValidLtvRange (st : HardState) (dep : Deposit) (bor : Borrow) :
    Except HardError Bool :=
  match getAssetValue st bor.amount with
  | .error e => .error e
  | .ok borrowValue =>
    match getAssetValue st dep.amount with
    | .error e => .error e
    | .ok depositValue =>
      .ok (decide (borrowValue = 0 ∨
        borrowValue ≤ depositValue * effectiveLtvLimit st dep.amount))

/-- Modelled from the spec: `Keeper.GetStoreLTV` / RiskIndex
`currentStanding(account)`: reads the ratio from the stored (pre-mutation)
deposit and borrow; the flag says the entry should be removed (§4.3:
"removal when the account has no deposit or no borrow"). -/
def getStoreLTV (st : HardState) (addr : Addr) : Except HardError (ℚ × Bool) :=
  match getDeposit st addr, getBorrow st addr with
  | some dep, some bor =>
    match getAssetValue st bor.amount with
    | .error e => .error e
    | .ok borrowValue =>
      match getAssetValue st dep.amount with
      | .error e => .error e
      | .ok depositValue =>
        .ok (if depositValue = 0 then 0 else borrowValue / depositValue, false)
  | _, _ => .ok (0, true)

/-- Modelled from the spec: `Keeper.UpdateItemInLtvIndex` / RiskIndex
`update(account, priorStanding)`: drop the account's entry and re-insert it
with the recomputed post-mutation ratio when the account still has both a
deposit and a borrow (§4.3).  The two prior-standing arguments mirror the
source call signature. -/
def updateItemInLtvIndex (st : HardState) (prevLtv : ℚ) (shouldRemoveIndex : Bool)
    (addr : Addr) : HardState :=
  let cleared := st.ltvIndex.filter (fun e => !(e.2 == addr))
  match getStoreLTV st addr with
  | .ok (ltv, false) => { st with ltvIndex := cleared ++ [(ltv, addr)] }
  | _ => { st with ltvIndex := cleared }

/-! ### Deposit (`src/x/hard/keeper/deposit.go` lines 13-124) -/

/-- Lines 15-24 of `Deposit`: "Set any new denoms' global supply index to
1.0" — for every requested coin whose denom has no stored supply interest
factor but does have a money market, write factor 1. -/
def initSupplyFactors (st : HardState) (coins : Coins) : HardState :=
  coins.foldl (fun s c =>
    match getSupplyInterestFactor s c.denom with
    | some _ => s
    | none =>
      match getMoneyMarket s c.denom with
      | some _ => setSupplyInterestFactor s c.denom 1
      | none => s) st

/-- `Keeper.ValidateDeposit`: every requested denom must appear among the
`params.LiquidityProviderSchedules` deposit denoms, else
`ErrInvalidDepositDenom`. -/
def validateDeposit (st : HardState) : Coins → Option HardError
  | [] => none
  | c :: rest =>
    if st.params.liquidityProviderSchedules.any (fun lps => lps.depositDenom == c.denom)
    then validateDeposit st rest
    else some (.invalidDepositDenom c.denom)

/-- Lines 42-55 of `Deposit`: when the transfer fails on insufficient
account funds, report the first requested coin exceeding the spendable
balance as `ErrBorrowExceedsAvailableBalance`. -/
def wrapDepositTransferError (st : HardState) (depositor : Addr) (coins : Coins)
    (e : HardError) : HardError :=
  if e = .insufficientAccountFunds then
    match coins.find? (fun c => (Coins.safeSub (getAccountCoins st depositor) [c]).2) with
    | some c => .borrowExceedsAvailableBalance c.denom
    | none => e
  else e

/-- `Keeper.Deposit`.  The returned state is the store as the call leaves
it — note that the factor initialization and the two interest syncs happen
(and persist) before validation, so error returns after them keep those
writes.  Event emission is not modelled. -/
def deposit (st0 : HardState) (depositor : Addr) (coins : Coins) :
    HardState × Option HardError :=
  let sti := initSupplyFactors st0 coins
  match getStoreLTV sti depositor with
  | .error e => (sti, some e)
  | .ok pr =>
    let st1 := syncSupplyInterest (syncBorrowInterest sti depositor) depositor
    match validateDeposit st1 coins with
    | some e => (st1, some e)
    | none =>
      match sendCoinsFromAccountToModule st1 depositor coins with
      | .error e => (st1, some (wrapDepositTransferError st1 depositor coins e))
      | .ok st2 =>
        match getDeposit st2 depositor with
        | some currDeposit =>
          -- add an index entry for each requested denom not already deposited
          let factors : SupplyInterestFactors :=
            (coins.filterMap (fun c =>
              if Coins.denomsSubsetOf [c] currDeposit.amount then none
              else some ⟨c.denom, supplyFactorOf st2 c.denom⟩))
            ++ currDeposit.index
          let st3 := setDeposit st2
            ⟨depositor, Coins.add currDeposit.amount coins, factors⟩
          (updateItemInLtvIndex st3 pr.1 pr.2 depositor, none)
        | none =>
          let factors : SupplyInterestFactors :=
            coins.map (fun c => ⟨c.denom, supplyFactorOf st2 c.denom⟩)
          let st3 := setDeposit st2 ⟨depositor, coins, factors⟩
          (updateItemInLtvIndex st3 pr.1 pr.2 depositor, none)

/-! ### Withdraw (`src/x/hard/keeper/deposit.go` lines 167-233) -/

/-- `Keeper.Withdraw`.  Mirrors the source: capture standing, sync both
sides, check the deposit exists, check the proposed remainder is
non-negative, check LTV, transfer, then delete the record on full
withdrawal (returning without updating the risk index) or subtract,
persist and update the risk index. -/
def withdraw (st0 : HardState) (depositor : Addr) (coins : Coins) :
    HardState × Option HardError :=
  match getStoreLTV st0 depositor with
  | .error e => (st0, some e)
  | .ok pr =>
    let st1 := syncSupplyInterest (syncBorrowInterest st0 depositor) depositor
    match getDeposit st1 depositor with
    | none => (st1, some (.depositNotFound depositor))
    | some dep =>
      let bor := (getBorrow st1 depositor).getD ⟨"", [], []⟩
      let pa := Coins.safeSub dep.amount coins
      if pa.2 then (st1, some .negativeBorrowedCoins)
      else
        match isWithinValidLtvRange st1 ⟨dep.depositor, pa.1, []⟩ bor with
        | .error e => (st1, some e)
        | .ok valid =>
          if !valid then (st1, some .invalidWithdrawAmount)
          else
            match sendCoinsFromModuleToAccount st1 depositor coins with
            | .error e => (st1, some e)
            | .ok st2 =>
              if Coins.isEqual dep.amount coins then
                (deleteDeposit st2 dep, none)
              else
                let st3 := setDeposit st2 { dep with amount := Coins.sub dep.amount coins }
                (updateItemInLtvIndex st3 pr.1 pr.2 depositor, none)

/-! ### Spec-modelled Borrow and Repay (§4.4; not among the source files) -/

/-- Modelled from the spec: Borrow "validates each asset against its money
market's aggregate borrow cap". -/
def validateBorrow (st : HardState) : Coins → Option HardError
  | [] => none
  | c :: rest =>
    match getMoneyMarket st c.denom with
    | none => some (.moneyMarketNotFound c.denom)
    | some mm =>
      if mm.borrowLimit.hasMaxLimit &&
          decide (mm.borrowLimit.maximumLimit <
            ((Coins.amountOf st.totalBorrowed c.denom + c.amount : Int) : ℚ))
      then some (.borrowExceedsCap c.denom)
      else validateBorrow st rest

/-- Modelled from the spec: `Keeper.Borrow` — "validates each asset against
its money market's aggregate borrow cap, syncs both sides, validates LTV on
(current deposit, proposed borrow), transfers from pool to account, merges
into Borrow balance set with fresh/retained index entries, persists,
updates risk index" (§4.4), with the standing captured first (§2). -/
def borrowOp (st0 : HardState) (borrower : Addr) (coins : Coins) :
    HardState × Option HardError :=
  match getStoreLTV st0 borrower with
  | .error e => (st0, some e)
  | .ok pr =>
    let st1 := syncSupplyInterest (syncBorrowInterest st0 borrower) borrower
    match validateBorrow st1 coins with
    | some e => (st1, some e)
    | none =>
      let dep := (getDeposit st1 borrower).getD ⟨borrower, [], []⟩
      let currBorrow := (getBorrow st1 borrower).getD ⟨borrower, [], []⟩
      match isWithinValidLtvRange st1 dep
          ⟨borrower, Coins.add currBorrow.amount coins, []⟩ with
      | .error e => (st1, some e)
      | .ok valid =>
        if !valid then (st1, some .invalidBorrowAmount)
        else
          match sendCoinsFromModuleToAccount st1 borrower coins with
          | .error e => (st1, some e)
          | .ok st2 =>
            let factors : List BorrowInterestFactor :=
              (coins.filterMap (fun c =>
                if Coins.denomsSubsetOf [c] currBorrow.amount then none
                else some ⟨c.denom, borrowFactorOf st2 c.denom⟩))
              ++ currBorrow.index
            let st3 := setBorrow st2
              ⟨borrower, Coins.add currBorrow.amount coins, factors⟩
            let st4 := { st3 with totalBorrowed := Coins.add st3.totalBorrowed coins }
            (updateItemInLtvIndex st4 pr.1 pr.2 borrower, none)

/-- Modelled from the spec: `Keeper.CalculatePaymentAmount` — "the effective
amount actually transferred ... is the element-wise minimum of requested
and owed". -/
def calculatePaymentAmount (owed payment : Coins) : Coins :=
  payment.filterMap (fun c =>
    let m := min c.amount (Coins.amountOf owed c.denom)
    if m = 0 then none else some ⟨c.denom, m⟩)

/-- Modelled from the spec: `Keeper.Repay` (§4.4) — sync both sides for the
borrower; fail when there is no borrow record; fail for a requested asset
absent from the debt (max repayable zero); cap each asset at the owed
amount; fail when the payer's spendable balance cannot cover the capped
amount; transfer the capped amount from payer to pool; subtract it from
the debt, deleting the record when the debt reaches zero. -/
def repay (st0 : HardState) (payer borrower : Addr) (coins : Coins) :
    HardState × Option HardError :=
  let st1 := syncSupplyInterest (syncBorrowInterest st0 borrower) borrower
  match getBorrow st1 borrower with
  | none => (st1, some (.borrowNotFound borrower))
  | some bor =>
    match coins.find? (fun c => !((Coins.denomList bor.amount).contains c.denom)) with
    | some c => (st1, some (.exceedsOwedAmount c.denom))
    | none =>
      let payment := calculatePaymentAmount bor.amount coins
      match payment.find? (fun c =>
          decide (Coins.amountOf (getAccountCoins st1 payer) c.denom < c.amount)) with
      | some c => (st1, some (.insufficientBalanceForRepay c.denom))
      | none =>
        match sendCoinsFromAccountToModule st1 payer payment with
        | .error e => (st1, some e)
        | .ok st2 =>
          let newAmount := Coins.sub bor.amount payment
          if newAmount.isEmpty then (deleteBorrow st2 bor, none)
          else (setBorrow st2 { bor with amount := newAmount }, none)

/-- `Keeper.GetTotalDeposited`: the module account's balance of a denom. -/
def getTotalDeposited (st : HardState) (depositDenom : Denom) : Int :=
  Coins.amountOf st.moduleCoins depositDenom

/-! ### Concrete states used by witnesses and counterexamples -/

/-- A money market configuration with the given denom, oracle market id and
max loan-to-value (conversion factor 1; remaining fields arbitrary). -/
def mkMoneyMarket (d : Denom) (market : String) (ltv : ℚ) : MoneyMarket :=
  ⟨d, ⟨false, 0, ltv⟩, market, 1, ⟨0, 1, 1, 1⟩, 0, 10, 0⟩

/-- A state with a `ukava` money market but an empty liquidity-provider
schedule list, no balances and no records. -/
def stValEmpty : HardState :=
  ⟨⟨true, [mkMoneyMarket "ukava" "kava:usd" 1], 10, []⟩,
    [], [], [], [], [], [], [], [], []⟩

/-- A state whose single account `alice` holds a deposit of 100 `uA` with an
empty index list and no stored factors, 500 `uA` spendable and a funded
module pool. -/
def stOneDeposit : HardState :=
  ⟨⟨true, [mkMoneyMarket "uA" "A:usd" 1], 10, [⟨"uA"⟩]⟩,
    [], [], [⟨"alice", [⟨"uA", 100⟩], []⟩], [],
    [("alice", [⟨"uA", 500⟩])], [⟨"uA", 1000⟩], [("A:usd", 1)], [], []⟩

/-- A state where `alice` has deposited 100 `uA` and borrowed 90 `uA`
against a money market with max LTV 1/2 and oracle price 1. -/
def stLtv : HardState :=
  ⟨⟨true, [mkMoneyMarket "uA" "A:usd" (1/2)], 10, [⟨"uA"⟩]⟩,
    [], [],
    [⟨"alice", [⟨"uA", 100⟩], []⟩],
    [⟨"alice", [⟨"uA", 90⟩], []⟩],
    [], [⟨"uA", 1000⟩], [("A:usd", 1)], [], []⟩

/-- Like `stLtv` (max LTV 1 here) but with a supply factor of 2 against a
stored snapshot of 1, so a sync accrues real interest before any
validation can fail. -/
def stLtvPending : HardState :=
  ⟨⟨true, [mkMoneyMarket "uA" "A:usd" 1], 10, [⟨"uA"⟩]⟩,
    [("uA", 2)], [("uA", 1)],
    [⟨"alice", [⟨"uA", 100⟩], [⟨"uA", 1⟩]⟩],
    [⟨"alice", [⟨"uA", 90⟩], [⟨"uA", 1⟩]⟩],
    [], [⟨"uA", 1000⟩], [("A:usd", 1)], [], []⟩

/-- `stLtv` after both interest syncs for `alice`: the empty index lists
gain entries at the (absent, hence zero) stored factors; balances are
unchanged. -/
def stLtvSynced : HardState :=
  ⟨⟨true, [mkMoneyMarket "uA" "A:usd" (1/2)], 10, [⟨"uA"⟩]⟩,
    [], [],
    [⟨"alice", [⟨"uA", 100⟩], [⟨"uA", 0⟩]⟩],
    [⟨"alice", [⟨"uA", 90⟩], [⟨"uA", 0⟩]⟩],
    [], [⟨"uA", 1000⟩], [("A:usd", 1)], [], []⟩

/-- `stLtvPending` after both syncs: the supply side accrued 100 `uA` of
interest (100/1*2 - 100) and both snapshots moved to the current factors. -/
def stLtvPendingSynced : HardState :=
  ⟨⟨true, [mkMoneyMarket "uA" "A:usd" 1], 10, [⟨"uA"⟩]⟩,
    [("uA", 2)], [("uA", 1)],
    [⟨"alice", [⟨"uA", 200⟩], [⟨"uA", 2⟩]⟩],
    [⟨"alice", [⟨"uA", 90⟩], [⟨"uA", 1⟩]⟩],
    [], [⟨"uA", 1000⟩], [("A:usd", 1)], [], []⟩

/-- A state with a deposit, no borrow, and a stale risk-index entry for the
account. -/
def stStaleIndex : HardState :=
  ⟨⟨true, [mkMoneyMarket "uA" "A:usd" 1], 10, [⟨"uA"⟩]⟩,
    [], [], [⟨"alice", [⟨"uA", 100⟩], []⟩], [], [],
    [⟨"uA", 1000⟩], [("A:usd", 1)], [(0, "alice")], []⟩

/-- `stStaleIndex` after the syncs and the pool-to-account transfer of the
full 100 `uA`. -/
def stStaleSent : HardState :=
  ⟨⟨true, [mkMoneyMarket "uA" "A:usd" 1], 10, [⟨"uA"⟩]⟩,
    [], [], [⟨"alice", [⟨"uA", 100⟩], [⟨"uA", 0⟩]⟩], [],
    [("alice", [⟨"uA", 100⟩])], [⟨"uA", 900⟩], [("A:usd", 1)], [(0, "alice")], []⟩

/-- `stStaleIndex` after the syncs and a partial transfer of 30 `uA`. -/
def stStalePartialSent : HardState :=
  ⟨⟨true, [mkMoneyMarket "uA" "A:usd" 1], 10, [⟨"uA"⟩]⟩,
    [], [], [⟨"alice", [⟨"uA", 100⟩], [⟨"uA", 0⟩]⟩], [],
    [("alice", [⟨"uA", 30⟩])], [⟨"uA", 970⟩], [("A:usd", 1)], [(0, "alice")], []⟩

/-- A state with a stored supply factor of 2 against a deposit snapshot of
1 (interest pending). -/
def stC3 : HardState :=
  ⟨⟨true, [mkMoneyMarket "uA" "A:usd" 1], 10, [⟨"uA"⟩]⟩,
    [("uA", 2)], [], [⟨"alice", [⟨"uA", 100⟩], [⟨"uA", 1⟩]⟩], [], [], [], [], [], []⟩

/-- A two-asset deposit with an empty index list (the sync will create both
entries). -/
def stTwoAsset : HardState :=
  ⟨⟨true, [mkMoneyMarket "uA" "A:usd" 1, mkMoneyMarket "uB" "B:usd" 1], 10,
      [⟨"uA"⟩, ⟨"uB"⟩]⟩,
    [], [], [⟨"alice", [⟨"uA", 100⟩, ⟨"uB", 50⟩], []⟩], [], [],
    [⟨"uA", 1000⟩, ⟨"uB", 1000⟩], [("A:usd", 1), ("B:usd", 1)], [], []⟩

/-- `stOneDeposit` after factor initialization, syncs, and the
account-to-pool transfer of 50 `uA` (the deposit-merge has not happened
yet). -/
def stOneDepositSent : HardState :=
  ⟨⟨true, [mkMoneyMarket "uA" "A:usd" 1], 10, [⟨"uA"⟩]⟩,
    [("uA", 1)], [], [⟨"alice", [⟨"uA", 100⟩], [⟨"uA", 1⟩]⟩], [],
    [("alice", [⟨"uA", 450⟩])], [⟨"uA", 1050⟩], [("A:usd", 1)], [], []⟩

/-- `stOneDeposit` after the syncs and a pool-to-account transfer of
40 `uA`. -/
def stOneDepositWithdrawn : HardState :=
  ⟨⟨true, [mkMoneyMarket "uA" "A:usd" 1], 10, [⟨"uA"⟩]⟩,
    [], [], [⟨"alice", [⟨"uA", 100⟩], [⟨"uA", 0⟩]⟩], [],
    [("alice", [⟨"uA", 540⟩])], [⟨"uA", 960⟩], [("A:usd", 1)], [], []⟩

/-- A borrower `bob` owing 50 `uA` with 200 `uA` spendable; the repay
scenario of the spec (§8). -/
def stRepay : HardState :=
  ⟨⟨true, [mkMoneyMarket "uA" "A:usd" 1], 10, [⟨"uA"⟩]⟩,
    [], [], [], [⟨"bob", [⟨"uA", 50⟩], []⟩],
    [("bob", [⟨"uA", 200⟩])], [⟨"uA", 500⟩], [], [], []⟩

/-- `stRepay` after the syncs and the payer-to-pool transfer of the capped
50 `uA` payment. -/
def stRepaySent : HardState :=
  ⟨⟨true, [mkMoneyMarket "uA" "A:usd" 1], 10, [⟨"uA"⟩]⟩,
    [], [], [], [⟨"bob", [⟨"uA", 50⟩], [⟨"uA", 0⟩]⟩],
    [("bob", [⟨"uA", 150⟩])], [⟨"uA", 550⟩], [], [], []⟩

/-- A clean state for the first-ever deposit of a freshly activated asset:
a `ukava` money market and schedule exist, but no factor is stored and no
records exist. -/
def stFresh : HardState :=
  ⟨⟨true, [mkMoneyMarket "ukava" "kava:usd" 1], 10, [⟨"ukava"⟩]⟩,
    [], [], [], [], [("alice", [⟨"ukava", 50⟩])], [⟨"ukava", 100⟩], [], [], []⟩

/-- `stFresh` after factor initialization, (no-op) syncs, and the transfer
of the 10 `ukava` deposit into the pool. -/
def stFreshSent : HardState :=
  ⟨⟨true, [mkMoneyMarket "ukava" "kava:usd" 1], 10, [⟨"ukava"⟩]⟩,
    [("ukava", 1)], [], [], [], [("alice", [⟨"ukava", 40⟩])],
    [⟨"ukava", 110⟩], [], [], []⟩

/-! # Theorems -/

theorem decTruncateInt_of_nonneg {q : ℚ} (h : 0 ≤ q) : decTruncateInt q = ⌊q⌋ := by
  simp [decTruncateInt, not_lt.mpr h]

theorem decTruncateInt_zero : decTruncateInt 0 = 0 := by
  simp [decTruncateInt]

/-! ### Basic lemmas about the coin model -/

theorem Coins.amountOf_nil (d : Denom) : Coins.amountOf [] d = 0 := rfl

theorem Coins.amountOf_eq_zero_of_not_mem {cs : Coins} {d : Denom}
    (h : d ∉ Coins.denomList cs) : Coins.amountOf cs d = 0 := by
  induction cs with
  | nil => rfl
  | cons c rest ih =>
    simp only [Coins.denomList, List.map_cons, List.mem_cons, not_or] at h
    have hne : (c.denom == d) = false := by
      simpa [beq_iff_eq] using (fun hc => h.1 hc.symm)
    simp only [Coins.amountOf, List.find?]
    rw [hne]
    exact ih (by simpa [Coins.denomList] using h.2)

theorem Coins.amountOf_ofFun {v : Denom → Int} {l : List Denom} (hl : l.Nodup)
    (d : Denom) :
    Coins.amountOf (Coins.ofFun v l) d = if d ∈ l then v d else 0 := by
  induction l with
  | nil => simp [Coins.ofFun, Coins.amountOf]
  | cons a rest ih =>
    have hrest : rest.Nodup := (List.nodup_cons.mp hl).2
    have hnotmem : a ∉ rest := (List.nodup_cons.mp hl).1
    by_cases hva : v a = 0
    · have : Coins.ofFun v (a :: rest) = Coins.ofFun v rest := by
        simp [Coins.ofFun, hva]
      rw [this]
      by_cases hda : d = a
      · subst hda
        rw [ih hrest]
        simp [hnotmem, hva]
      · rw [ih hrest]
        simp [hda, fun h => hda]
    · have : Coins.ofFun v (a :: rest) = ⟨a, v a⟩ :: Coins.ofFun v rest := by
        simp [Coins.ofFun, hva]
      rw [this]
      by_cases hda : d = a
      · subst hda
        simp [Coins.amountOf, List.find?]
      · have hne : (a == d) = false := by simpa [beq_iff_eq] using fun h => hda h.symm
        simp only [Coins.amountOf, List.find?]
        rw [hne]
        have := ih hrest
        simp only [Coins.amountOf] at this
        rw [this]
        simp [hda]

theorem Coins.mem_denomList_ofFun {v : Denom → Int} {l : List Denom} {d : Denom}
    (h : d ∈ Coins.denomList (Coins.ofFun v l)) : d ∈ l := by
  induction l with
  | nil => simp [Coins.ofFun, Coins.denomList] at h
  | cons a rest ih =>
    by_cases hva : v a = 0
    · rw [show Coins.ofFun v (a :: rest) = Coins.ofFun v rest by simp [Coins.ofFun, hva]] at h
      exact List.mem_cons_of_mem a (ih h)
    · rw [show Coins.ofFun v (a :: rest) = ⟨a, v a⟩ :: Coins.ofFun v rest by
        simp [Coins.ofFun, hva]] at h
      simp only [Coins.denomList, List.map_cons, List.mem_cons] at h
      rcases h with h | h
      · exact h ▸ List.mem_cons_self a rest
      · exact List.mem_cons_of_mem a (ih (by simpa [Coins.denomList] using h))

theorem Coins.amount_ne_zero_of_mem_ofFun {v : Denom → Int} {l : List Denom} {c : Coin}
    (h : c ∈ Coins.ofFun v l) : c.amount ≠ 0 ∧ c.amount = v c.denom := by
  induction l with
  | nil => simp [Coins.ofFun] at h
  | cons a rest ih =>
    by_cases hva : v a = 0
    · rw [show Coins.ofFun v (a :: rest) = Coins.ofFun v rest by simp [Coins.ofFun, hva]] at h
      exact ih h
    · rw [show Coins.ofFun v (a :: rest) = ⟨a, v a⟩ :: Coins.ofFun v rest by
        simp [Coins.ofFun, hva]] at h
      rcases List.mem_cons.mp h with h | h
      · subst h; exact ⟨hva, rfl⟩
      · exact ih h

/-- The central pointwise law: `amountOf` distributes over `Coins.add`. -/
theorem Coins.amountOf_add (a b : Coins) (d : Denom) :
    Coins.amountOf (Coins.add a b) d = Coins.amountOf a d + Coins.amountOf b d := by
  unfold Coins.add
  rw [Coins.amountOf_ofFun (List.nodup_dedup _)]
  by_cases hmem : d ∈ (Coins.denomList a ++ Coins.denomList b).dedup
  · simp [hmem]
  · rw [if_neg hmem]
    rw [List.mem_dedup, List.mem_append] at hmem
    push_neg at hmem
    rw [Coins.amountOf_eq_zero_of_not_mem hmem.1, Coins.amountOf_eq_zero_of_not_mem hmem.2]
    simp

theorem Coins.mem_denomList_add {a b : Coins} {d : Denom}
    (h : d ∈ Coins.denomList (Coins.add a b)) :
    d ∈ Coins.denomList a ∨ d ∈ Coins.denomList b := by
  have := Coins.mem_denomList_ofFun h
  rw [List.mem_dedup, List.mem_append] at this
  exact this

theorem Coins.amountOf_ne_zero_of_mem_denomList {cs : Coins} {d : Denom}
    (hall : ∀ c ∈ cs, c.amount ≠ 0) (hnd : (Coins.denomList cs).Nodup)
    (h : d ∈ Coins.denomList cs) : Coins.amountOf cs d ≠ 0 := by
  induction cs with
  | nil => simp [Coins.denomList] at h
  | cons c rest ih =>
    by_cases hdc : c.denom = d
    · simp only [Coins.amountOf, List.find?, hdc, beq_self_eq_true]
      exact hall c (List.mem_cons_self _ _)
    · have hne : (c.denom == d) = false := by simpa [beq_iff_eq] using hdc
      simp only [Coins.amountOf, List.find?]
      rw [hne]
      have hmem : d ∈ Coins.denomList rest := by
        have hin : d ∈ c.denom :: Coins.denomList rest := by
          simpa [Coins.denomList] using h
        rcases List.mem_cons.mp hin with h1 | h1
        · exact absurd h1.symm hdc
        · exact h1
      have := ih (fun x hx => hall x (List.mem_cons_of_mem _ hx))
        ((List.nodup_cons.mp (by simpa [Coins.denomList] using hnd)).2) hmem
      simpa [Coins.amountOf] using this

/-- Coins in the image of `Coins.add` have nonzero amounts consistent with
`amountOf`. -/
theorem Coins.add_normal {a b : Coins} :
    (Coins.denomList (Coins.add a b)).Nodup ∧
      ∀ c ∈ Coins.add a b, c.amount ≠ 0 := by
  constructor
  · unfold Coins.add Coins.ofFun
    have hsub : ∀ (l : List Denom), (Coins.denomList
        (l.filterMap (fun d => if Coins.amountOf a d + Coins.amountOf b d = 0 then none
          else some ⟨d, Coins.amountOf a d + Coins.amountOf b d⟩))).Sublist l := by
      intro l
      induction l with
      | nil => simp [Coins.denomList]
      | cons x rest ih =>
        by_cases hx : Coins.amountOf a x + Coins.amountOf b x = 0
        · simpa [Coins.denomList, hx] using ih.cons x
        · simpa [Coins.denomList, hx] using ih.cons₂ x
    exact (hsub _).nodup (List.nodup_dedup _)
  · intro c hc
    exact (Coins.amount_ne_zero_of_mem_ofFun hc).1

theorem Coins.amountOf_eq_of_mem {cs : Coins} {c : Coin}
    (hnd : (Coins.denomList cs).Nodup) (hc : c ∈ cs) :
    Coins.amountOf cs c.denom = c.amount := by
  induction cs with
  | nil => simp at hc
  | cons x rest ih =>
    rcases List.mem_cons.mp hc with h | h
    · subst h
      simp [Coins.amountOf, List.find?]
    · have hx : x.denom ∉ Coins.denomList rest :=
        (List.nodup_cons.mp (by simpa [Coins.denomList] using hnd)).1
      have hcd : c.denom ∈ Coins.denomList rest := List.mem_map_of_mem _ h
      have hne : (x.denom == c.denom) = false := by
        rw [beq_eq_false_iff_ne]
        intro he
        exact hx (by rw [he]; exact hcd)
      simp only [Coins.amountOf, List.find?]
      rw [hne]
      have := ih (List.nodup_cons.mp (by simpa [Coins.denomList] using hnd)).2 h
      simpa [Coins.amountOf] using this

/-- Rebuilding a normal-form coin list from any amount function that agrees
with it reproduces the list itself. -/
theorem Coins.ofFun_eq_self {cs : Coins} (hz : ∀ c ∈ cs, c.amount ≠ 0)
    {v : Denom → Int} (hv : ∀ c ∈ cs, v c.denom = c.amount) :
    Coins.ofFun v (Coins.denomList cs) = cs := by
  induction cs with
  | nil => rfl
  | cons c rest ih =>
    have hvc : v c.denom = c.amount := hv c (List.mem_cons_self _ _)
    have hcz : ¬ v c.denom = 0 := by rw [hvc]; exact hz c (List.mem_cons_self _ _)
    simp only [Coins.denomList, List.map_cons, Coins.ofFun, List.filterMap_cons]
    rw [if_neg hcz, hvc]
    have := ih (fun x hx => hz x (List.mem_cons_of_mem _ hx))
      (fun x hx => hv x (List.mem_cons_of_mem _ hx))
    simp only [Coins.ofFun, Coins.denomList] at this
    rw [this]

/-- Adding the empty coin list is the identity on normal-form coin lists. -/
theorem Coins.add_nil_of_normal {cs : Coins}
    (hnd : (Coins.denomList cs).Nodup) (hz : ∀ c ∈ cs, c.amount ≠ 0) :
    Coins.add cs [] = cs := by
  unfold Coins.add
  have hded : (Coins.denomList cs ++ Coins.denomList ([] : Coins)).dedup
      = Coins.denomList cs := by
    simpa [Coins.denomList] using List.dedup_eq_self.mpr hnd
  rw [hded]
  exact Coins.ofFun_eq_self hz (fun c hc => by
    rw [Coins.amountOf_eq_of_mem hnd hc]
    simp [Coins.amountOf])

theorem keyedReplace_id {α : Type} (key : α → String) (x : α) (rest : List α)
    (hrest : ¬ rest.any (fun z => key z == key x)) :
    rest.map (fun z => if key z == key x then x else z) = rest := by
  calc rest.map (fun z => if key z == key x then x else z) = rest.map id := by
        apply List.map_congr_left
        intro z hz
        have hz0 : (key z == key x) = false := by
          by_contra hc
          rw [Bool.not_eq_false] at hc
          exact hrest (List.any_eq_true.mpr ⟨z, hz, hc⟩)
        simp [hz0]
    _ = rest := List.map_id rest

theorem keyedGet_keyedSet_self {α : Type} (key : α → String) (l : List α) (x : α) :
    keyedGet key (keyedSet key l x) (key x) = some x := by
  unfold keyedSet
  by_cases hany : l.any (fun y => key y == key x)
  · rw [if_pos hany]
    induction l with
    | nil => simp at hany
    | cons y rest ih =>
      by_cases hy : key y == key x
      · simp only [List.map_cons, keyedGet, List.find?, if_pos hy, beq_self_eq_true]
      · have hrest : rest.any (fun y => key y == key x) := by
          rcases List.any_eq_true.mp hany with ⟨z, hz, hkz⟩
          rcases List.mem_cons.mp hz with h | h
          · exact absurd (h ▸ hkz) (by simpa using hy)
          · exact List.any_eq_true.mpr ⟨z, h, hkz⟩
        have := ih hrest
        simp only [List.map_cons, keyedGet, List.find?, if_neg hy]
        rw [show (key y == key x) = false by simpa using hy]
        simpa [keyedGet] using this
  · rw [if_neg hany]
    induction l with
    | nil => simp [keyedGet]
    | cons y rest ih =>
      have hy : (key y == key x) = false := by
        by_contra hc
        rw [Bool.not_eq_false] at hc
        exact hany (List.any_eq_true.mpr ⟨y, List.mem_cons_self _ _, hc⟩)
      simp only [List.cons_append, keyedGet, List.find?]
      rw [hy]
      have hrest : ¬ rest.any (fun z => key z == key x) := by
        intro hc
        rcases List.any_eq_true.mp hc with ⟨z, hz, hkz⟩
        exact hany (List.any_eq_true.mpr ⟨z, List.mem_cons_of_mem _ hz, hkz⟩)
      simpa [keyedGet] using ih hrest

theorem keyedGet_keyedSet_other {α : Type} (key : α → String) (l : List α) (x : α)
    (k : String) (hk : k ≠ key x) :
    keyedGet key (keyedSet key l x) k = keyedGet key l k := by
  unfold keyedSet
  by_cases hany : l.any (fun y => key y == key x)
  · rw [if_pos hany]
    induction l with
    | nil => simp [keyedGet]
    | cons y rest ih =>
      by_cases hy : key y == key x
      · have hyk : (key y == k) = false := by
          have : key y = key x := by simpa using hy
          simpa [this] using fun h => hk h.symm
        have hxk : (key x == k) = false := by simpa using fun h => hk h.symm
        simp only [List.map_cons, keyedGet, List.find?, if_pos hy]
        rw [hxk, hyk]
        by_cases hrest : rest.any (fun z => key z == key x)
        · simpa [keyedGet] using ih hrest
        · rw [keyedReplace_id key x rest hrest]
      · simp only [List.map_cons, keyedGet, List.find?, if_neg hy]
        by_cases hyk : key y == k
        · rw [hyk]
        · rw [show (key y == k) = false by simpa using hyk]
          by_cases hrest : rest.any (fun z => key z == key x)
          · simpa [keyedGet] using ih hrest
          · rw [keyedReplace_id key x rest hrest]
  · rw [if_neg hany]
    unfold keyedGet
    rw [List.find?_append]
    have hxk : (key x == k) = false := by
      rw [beq_eq_false_iff_ne]
      intro h
      exact hk h.symm
    have : List.find? (fun y => key y == k) [x] = none := by
      simp [List.find?, hxk]
    rw [this]
    simp

theorem keyedGet_keyedRemove_self {α : Type} (key : α → String) (l : List α) (k : String) :
    keyedGet key (keyedRemove key l k) k = none := by
  unfold keyedGet keyedRemove
  rw [List.find?_eq_none]
  intro x hx
  have := (List.mem_filter.mp hx).2
  simpa using this

/-! ### Lemmas about index lists -/

theorem indexValue_append_ne {idx : SupplyInterestFactors} {d : Denom}
    (e : SupplyInterestFactor) (h : e.denom ≠ d) :
    indexValue (idx ++ [e]) d = indexValue idx d := by
  induction idx with
  | nil =>
    have : (e.denom == d) = false := by simpa using h
    simp [indexValue, List.find?, this]
  | cons x rest ih =>
    by_cases hx : x.denom = d
    · have : (x.denom == d) = true := by simpa using hx
      simp [indexValue, List.find?, this]
    · have hbeq : (x.denom == d) = false := by simpa using hx
      simp only [indexValue, List.cons_append, List.find?, hbeq] at ih ⊢
      exact ih

theorem indexValue_append_self {idx : SupplyInterestFactors} {d : Denom} {v : ℚ}
    (h : indexValue idx d = none) :
    indexValue (idx ++ [(⟨d, v⟩ : SupplyInterestFactor)]) d = some v := by
  induction idx with
  | nil => simp [indexValue, List.find?]
  | cons x rest ih =>
    by_cases hx : x.denom = d
    · have hbeq : (x.denom == d) = true := by simpa using hx
      simp [indexValue, List.find?, hbeq] at h
    · have hbeq : (x.denom == d) = false := by simpa using hx
      simp only [indexValue, List.find?, hbeq] at h
      simp only [indexValue, List.cons_append, List.find?, hbeq]
      exact ih h

theorem indexValue_setValue_ne {idx : SupplyInterestFactors} {d d2 : Denom} {v : ℚ}
    (h : d ≠ d2) :
    indexValue (indexSetValue idx d2 v) d = indexValue idx d := by
  induction idx with
  | nil => rfl
  | cons e rest ih =>
    by_cases he : e.denom = d2
    · have : (e.denom == d2) = true := by simpa using he
      simp only [indexSetValue, this, if_true]
      have hne : (e.denom == d) = false := by
        rw [beq_eq_false_iff_ne]; rw [he]; exact fun hc => h hc.symm
      simp [indexValue, List.find?, hne]
    · have : (e.denom == d2) = false := by simpa using he
      simp only [indexSetValue, this, if_false]
      by_cases hed : e.denom = d
      · have : (e.denom == d) = true := by simpa using hed
        simp [indexValue, List.find?, this]
      · have hne : (e.denom == d) = false := by simpa using hed
        simp only [indexValue, List.find?, hne]
        exact ih

theorem indexValue_setValue_self {idx : SupplyInterestFactors} {d : Denom} {w v : ℚ}
    (h : indexValue idx d = some w) :
    indexValue (indexSetValue idx d v) d = some v := by
  induction idx with
  | nil => simp [indexValue] at h
  | cons e rest ih =>
    by_cases he : e.denom = d
    · have hbeq : (e.denom == d) = true := by simpa using he
      simp [indexSetValue, hbeq, indexValue, List.find?]
    · have hbeq : (e.denom == d) = false := by simpa using he
      simp only [indexSetValue, hbeq, if_false]
      simp only [indexValue, List.find?, hbeq] at h ⊢
      exact ih h

theorem indexSetValue_of_none {idx : SupplyInterestFactors} {d : Denom} {v : ℚ}
    (h : indexValue idx d = none) : indexSetValue idx d v = idx := by
  induction idx with
  | nil => rfl
  | cons e rest ih =>
    by_cases he : e.denom = d
    · have hbeq : (e.denom == d) = true := by simpa using he
      simp [indexValue, List.find?, hbeq] at h
    · have hbeq : (e.denom == d) = false := by simpa using he
      simp only [indexValue, List.find?, hbeq] at h
      simp [indexSetValue, hbeq, ih h]

theorem indexSetValue_same {idx : SupplyInterestFactors} {d : Denom} {v : ℚ}
    (h : indexValue idx d = some v) : indexSetValue idx d v = idx := by
  induction idx with
  | nil => simp [indexValue] at h
  | cons e rest ih =>
    by_cases he : e.denom = d
    · have hbeq : (e.denom == d) = true := by simpa using he
      simp only [indexValue, List.find?, hbeq] at h
      have hv : v = e.value := by
        simpa using h.symm
      simp [indexSetValue, hbeq, hv]
    · have hbeq : (e.denom == d) = false := by simpa using he
      simp only [indexValue, List.find?, hbeq] at h
      simp [indexSetValue, hbeq, ih h]

theorem Coins.amountOf_singleton (d : Denom) (i : Int) (d2 : Denom) :
    Coins.amountOf [(⟨d, i⟩ : Coin)] d2 = if d = d2 then i else 0 := by
  by_cases h : d = d2
  · have : (d == d2) = true := by simpa using h
    simp [Coins.amountOf, List.find?, this, h]
  · have : (d == d2) = false := by simpa using h
    simp [Coins.amountOf, List.find?, this, h]

/-! ### Lemmas about the sync fold -/

theorem indexValue_syncStep_self (st : HardState) (amt : Coins)
    (acc : SupplyInterestFactors × Coins) (c : Coin) :
    indexValue (syncStep st amt acc c).1 c.denom = some (supplyFactorOf st c.denom) := by
  unfold syncStep
  cases h : indexValue acc.1 c.denom with
  | none => exact indexValue_append_self h
  | some snap => exact indexValue_setValue_self h

theorem syncStep_ne (st : HardState) (amt : Coins)
    (acc : SupplyInterestFactors × Coins) (c : Coin) {d : Denom} (h : c.denom ≠ d) :
    indexValue (syncStep st amt acc c).1 d = indexValue acc.1 d ∧
      Coins.amountOf (syncStep st amt acc c).2 d = Coins.amountOf acc.2 d := by
  unfold syncStep
  cases hi : indexValue acc.1 c.denom with
  | none =>
    refine ⟨indexValue_append_ne _ h, rfl⟩
  | some snap =>
    constructor
    · exact indexValue_setValue_ne (fun hc => h hc.symm)
    · rw [Coins.amountOf_add, Coins.amountOf_singleton]
      simp [h]

theorem syncStep_amount_entry (st : HardState) (amt : Coins)
    (acc : SupplyInterestFactors × Coins) (c : Coin) {snap : ℚ}
    (h : indexValue acc.1 c.denom = some snap) :
    Coins.amountOf (syncStep st amt acc c).2 c.denom =
      Coins.amountOf acc.2 c.denom +
        decTruncateInt ((Coins.amountOf amt c.denom : ℚ) / snap * supplyFactorOf st c.denom
          - (Coins.amountOf amt c.denom : ℚ)) := by
  unfold syncStep
  rw [h]
  simp only
  rw [Coins.amountOf_add, Coins.amountOf_singleton]
  simp

theorem syncStep_amount_noentry (st : HardState) (amt : Coins)
    (acc : SupplyInterestFactors × Coins) (c : Coin)
    (h : indexValue acc.1 c.denom = none) :
    Coins.amountOf (syncStep st amt acc c).2 c.denom = Coins.amountOf acc.2 c.denom := by
  unfold syncStep
  rw [h]

/-- Denoms that never occur in the processed coins are untouched by the
whole fold. -/
theorem syncFold_untouched (st : HardState) (amt : Coins) :
    ∀ (cs : Coins) (acc : SupplyInterestFactors × Coins) (d : Denom),
      (∀ c ∈ cs, c.denom ≠ d) →
      indexValue (cs.foldl (syncStep st amt) acc).1 d = indexValue acc.1 d ∧
        Coins.amountOf (cs.foldl (syncStep st amt) acc).2 d = Coins.amountOf acc.2 d := by
  intro cs
  induction cs with
  | nil => intro acc d h; exact ⟨rfl, rfl⟩
  | cons c rest ih =>
    intro acc d h
    have hc := h c (List.mem_cons_self _ _)
    have hstep := syncStep_ne st amt acc c hc
    have hrest := ih (syncStep st amt acc c) d (fun x hx => h x (List.mem_cons_of_mem _ hx))
    simp only [List.foldl_cons]
    exact ⟨hrest.1.trans hstep.1, hrest.2.trans hstep.2⟩

/-- Behaviour of the sync fold on a processed denom that already had an
index entry: the snapshot becomes the current global factor and the
truncated interest for that denom is accumulated exactly once. -/
theorem syncFold_entry (st : HardState) (amt : Coins) :
    ∀ (cs : Coins) (acc : SupplyInterestFactors × Coins) (c : Coin),
      c ∈ cs → (Coins.denomList cs).Nodup →
      ∀ snap, indexValue acc.1 c.denom = some snap →
      indexValue (cs.foldl (syncStep st amt) acc).1 c.denom
          = some (supplyFactorOf st c.denom) ∧
        Coins.amountOf (cs.foldl (syncStep st amt) acc).2 c.denom
          = Coins.amountOf acc.2 c.denom +
            decTruncateInt ((Coins.amountOf amt c.denom : ℚ) / snap
              * supplyFactorOf st c.denom - (Coins.amountOf amt c.denom : ℚ)) := by
  intro cs
  induction cs with
  | nil => intro acc c hc; simp at hc
  | cons c0 rest ih =>
    intro acc c hc hnd snap hsnap
    have hndc : (c0.denom :: Coins.denomList rest).Nodup := by
      simpa [Coins.denomList] using hnd
    have hnd2 := List.nodup_cons.mp hndc
    rcases List.mem_cons.mp hc with h | h
    · -- the head coin is the one we are tracking
      subst h
      have hrest : ∀ x ∈ rest, x.denom ≠ c.denom := by
        intro x hx he
        exact hnd2.1 (he ▸ List.mem_map_of_mem _ hx)
      simp only [List.foldl_cons]
      have hunt := syncFold_untouched st amt rest (syncStep st amt acc c) c.denom hrest
      refine ⟨hunt.1.trans (indexValue_syncStep_self st amt acc c), ?_⟩
      rw [hunt.2, syncStep_amount_entry st amt acc c hsnap]
    · -- the head coin has a different denom; the step preserves everything
      have hne : c0.denom ≠ c.denom := by
        intro he
        exact hnd2.1 (he ▸ List.mem_map_of_mem _ h)
      have hstep := syncStep_ne st amt acc c0 hne
      simp only [List.foldl_cons]
      have h2 := ih (syncStep st amt acc c0) c h hnd2.2 snap (by rw [hstep.1]; exact hsnap)
      exact ⟨h2.1, by rw [h2.2, hstep.2]⟩

/-- Behaviour of the sync fold on a processed denom that had no index
entry: a snapshot at the current global factor is appended and no interest
is accrued for it. -/
theorem syncFold_noentry (st : HardState) (amt : Coins) :
    ∀ (cs : Coins) (acc : SupplyInterestFactors × Coins) (c : Coin),
      c ∈ cs → (Coins.denomList cs).Nodup →
      indexValue acc.1 c.denom = none →
      indexValue (cs.foldl (syncStep st amt) acc).1 c.denom
          = some (supplyFactorOf st c.denom) ∧
        Coins.amountOf (cs.foldl (syncStep st amt) acc).2 c.denom
          = Coins.amountOf acc.2 c.denom := by
  intro cs
  induction cs with
  | nil => intro acc c hc; simp at hc
  | cons c0 rest ih =>
    intro acc c hc hnd hnone
    have hndc : (c0.denom :: Coins.denomList rest).Nodup := by
      simpa [Coins.denomList] using hnd
    have hnd2 := List.nodup_cons.mp hndc
    rcases List.mem_cons.mp hc with h | h
    · subst h
      have hrest : ∀ x ∈ rest, x.denom ≠ c.denom := by
        intro x hx he
        exact hnd2.1 (he ▸ List.mem_map_of_mem _ hx)
      simp only [List.foldl_cons]
      have hunt := syncFold_untouched st amt rest (syncStep st amt acc c) c.denom hrest
      refine ⟨hunt.1.trans (indexValue_syncStep_self st amt acc c), ?_⟩
      rw [hunt.2, syncStep_amount_noentry st amt acc c hnone]
    · have hne : c0.denom ≠ c.denom := by
        intro he
        exact hnd2.1 (he ▸ List.mem_map_of_mem _ h)
      have hstep := syncStep_ne st amt acc c0 hne
      simp only [List.foldl_cons]
      have h2 := ih (syncStep st amt acc c0) c h hnd2.2 (by rw [hstep.1]; exact hnone)
      exact ⟨h2.1, h2.2.trans (by rw [hstep.2])⟩

/-- After the fold every processed denom has an index entry (no uniqueness
assumptions needed). -/
theorem syncFold_presence (st : HardState) (amt : Coins) :
    ∀ (cs : Coins) (acc : SupplyInterestFactors × Coins) (c : Coin),
      c ∈ cs →
      (indexValue (cs.foldl (syncStep st amt) acc).1 c.denom).isSome := by
  intro cs
  induction cs with
  | nil => intro acc c hc; simp at hc
  | cons c0 rest ih =>
    intro acc c hc
    rcases List.mem_cons.mp hc with h | h
    · subst h
      -- presence is monotone along the rest of the fold
      have hmono : ∀ (cs2 : Coins) (acc2 : SupplyInterestFactors × Coins) (d : Denom),
          (indexValue acc2.1 d).isSome →
          (indexValue (cs2.foldl (syncStep st amt) acc2).1 d).isSome := by
        intro cs2
        induction cs2 with
        | nil => intro acc2 d h; exact h
        | cons x xs ih2 =>
          intro acc2 d h
          simp only [List.foldl_cons]
          apply ih2
          by_cases hx : x.denom = d
          · subst hx
            rw [indexValue_syncStep_self st amt acc2 x]
            simp
          · rw [(syncStep_ne st amt acc2 x hx).1]
            exact h
      simp only [List.foldl_cons]
      apply hmono
      rw [indexValue_syncStep_self st amt acc c]
      simp
    · simp only [List.foldl_cons]
      exact ih (syncStep st amt acc c0) c h

/-- The accumulated interest only ever contains processed denoms. -/
theorem syncFold_interest_denoms (st : HardState) (amt : Coins) :
    ∀ (cs : Coins) (acc : SupplyInterestFactors × Coins) (d : Denom),
      Coins.amountOf (cs.foldl (syncStep st amt) acc).2 d ≠ 0 →
      Coins.amountOf acc.2 d ≠ 0 ∨ d ∈ Coins.denomList cs := by
  intro cs
  induction cs with
  | nil => intro acc d h; exact Or.inl h
  | cons c0 rest ih =>
    intro acc d h
    simp only [List.foldl_cons] at h
    rcases ih (syncStep st amt acc c0) d h with h2 | h2
    · by_cases hd : c0.denom = d
      · exact Or.inr (by simp [Coins.denomList, hd])
      · rw [(syncStep_ne st amt acc c0 hd).2] at h2
        exact Or.inl h2
    · exact Or.inr (List.mem_cons_of_mem _ (by simpa [Coins.denomList] using h2))

/-- When every processed denom already has its snapshot at the current
(nonzero) global factor, the fold is the identity: no index change and no
interest. -/
theorem syncFold_fixed (st : HardState) (amt : Coins) :
    ∀ (cs : Coins) (idx : SupplyInterestFactors),
      (∀ c ∈ cs, indexValue idx c.denom = some (supplyFactorOf st c.denom) ∧
        supplyFactorOf st c.denom ≠ 0) →
      cs.foldl (syncStep st amt) (idx, []) = (idx, []) := by
  intro cs
  induction cs with
  | nil => intro idx h; rfl
  | cons c0 rest ih =>
    intro idx h
    have hc0 := h c0 (List.mem_cons_self _ _)
    have hstep : syncStep st amt (idx, []) c0 = (idx, []) := by
      unfold syncStep
      rw [hc0.1]
      simp only
      have hint : (Coins.amountOf amt c0.denom : ℚ) / supplyFactorOf st c0.denom
          * supplyFactorOf st c0.denom - (Coins.amountOf amt c0.denom : ℚ) = 0 := by
        rw [div_mul_cancel₀ _ hc0.2]
        ring
      rw [hint, decTruncateInt_zero]
      rw [indexSetValue_same hc0.1]
      have : Coins.add [] [(⟨c0.denom, 0⟩ : Coin)] = [] := by
        simp [Coins.add, Coins.ofFun, Coins.denomList, Coins.amountOf, List.find?]
      rw [this]
    simp only [List.foldl_cons, hstep]
    exact ih idx (fun x hx => h x (List.mem_cons_of_mem _ hx))

/-! ### Frame and accessor lemmas for the pipeline -/

theorem getDeposit_depositor {st : HardState} {a : Addr} {dep : Deposit}
    (h : getDeposit st a = some dep) : dep.depositor = a := by
  unfold getDeposit keyedGet at h
  have := List.find?_some h
  simpa using this

theorem getBorrow_borrower {st : HardState} {a : Addr} {b : Borrow}
    (h : getBorrow st a = some b) : b.borrower = a := by
  unfold getBorrow keyedGet at h
  have := List.find?_some h
  simpa using this

theorem getDeposit_setDeposit_self (st : HardState) (dep : Deposit) :
    getDeposit (setDeposit st dep) dep.depositor = some dep := by
  unfold getDeposit setDeposit
  exact keyedGet_keyedSet_self Deposit.depositor st.deposits dep

theorem getDeposit_setDeposit_other (st : HardState) (dep : Deposit) {a : Addr}
    (h : a ≠ dep.depositor) : getDeposit (setDeposit st dep) a = getDeposit st a := by
  unfold getDeposit setDeposit
  exact keyedGet_keyedSet_other Deposit.depositor st.deposits dep a h

theorem getBorrow_setBorrow_self (st : HardState) (b : Borrow) :
    getBorrow (setBorrow st b) b.borrower = some b := by
  unfold getBorrow setBorrow
  exact keyedGet_keyedSet_self Borrow.borrower st.borrows b

theorem setDeposit_frame (st : HardState) (dep : Deposit) :
    (setDeposit st dep).supplyInterestFactors = st.supplyInterestFactors ∧
    (setDeposit st dep).borrowInterestFactors = st.borrowInterestFactors ∧
    (setDeposit st dep).params = st.params ∧
    (setDeposit st dep).borrows = st.borrows ∧
    (setDeposit st dep).accountCoins = st.accountCoins ∧
    (setDeposit st dep).moduleCoins = st.moduleCoins ∧
    (setDeposit st dep).prices = st.prices ∧
    (setDeposit st dep).ltvIndex = st.ltvIndex := by
  unfold setDeposit
  exact ⟨rfl, rfl, rfl, rfl, rfl, rfl, rfl, rfl⟩

theorem syncSupplyInterest_of_none {st : HardState} {a : Addr}
    (h : getDeposit st a = none) : syncSupplyInterest st a = st := by
  unfold syncSupplyInterest
  rw [h]

theorem syncBorrowInterest_of_none {st : HardState} {a : Addr}
    (h : getBorrow st a = none) : syncBorrowInterest st a = st := by
  unfold syncBorrowInterest
  rw [h]

theorem syncSupplyInterest_frame (st : HardState) (a : Addr) :
    (syncSupplyInterest st a).supplyInterestFactors = st.supplyInterestFactors ∧
    (syncSupplyInterest st a).borrowInterestFactors = st.borrowInterestFactors ∧
    (syncSupplyInterest st a).params = st.params ∧
    (syncSupplyInterest st a).borrows = st.borrows ∧
    (syncSupplyInterest st a).accountCoins = st.accountCoins ∧
    (syncSupplyInterest st a).moduleCoins = st.moduleCoins ∧
    (syncSupplyInterest st a).prices = st.prices ∧
    (syncSupplyInterest st a).ltvIndex = st.ltvIndex := by
  unfold syncSupplyInterest
  cases getDeposit st a with
  | none => exact ⟨rfl, rfl, rfl, rfl, rfl, rfl, rfl, rfl⟩
  | some dep => exact ⟨rfl, rfl, rfl, rfl, rfl, rfl, rfl, rfl⟩

theorem syncBorrowInterest_frame (st : HardState) (a : Addr) :
    (syncBorrowInterest st a).supplyInterestFactors = st.supplyInterestFactors ∧
    (syncBorrowInterest st a).borrowInterestFactors = st.borrowInterestFactors ∧
    (syncBorrowInterest st a).params = st.params ∧
    (syncBorrowInterest st a).deposits = st.deposits ∧
    (syncBorrowInterest st a).accountCoins = st.accountCoins ∧
    (syncBorrowInterest st a).moduleCoins = st.moduleCoins ∧
    (syncBorrowInterest st a).prices = st.prices ∧
    (syncBorrowInterest st a).ltvIndex = st.ltvIndex := by
  unfold syncBorrowInterest
  cases getBorrow st a with
  | none => exact ⟨rfl, rfl, rfl, rfl, rfl, rfl, rfl, rfl⟩
  | some b => exact ⟨rfl, rfl, rfl, rfl, rfl, rfl, rfl, rfl⟩

theorem getDeposit_syncBorrowInterest (st : HardState) (a b : Addr) :
    getDeposit (syncBorrowInterest st a) b = getDeposit st b := by
  unfold getDeposit
  rw [(syncBorrowInterest_frame st a).2.2.2.1]

theorem getSupplyInterestFactor_syncBorrowInterest (st : HardState) (a : Addr) (d : Denom) :
    getSupplyInterestFactor (syncBorrowInterest st a) d = getSupplyInterestFactor st d := by
  unfold getSupplyInterestFactor
  rw [(syncBorrowInterest_frame st a).1]

theorem getSupplyInterestFactor_syncSupplyInterest (st : HardState) (a : Addr) (d : Denom) :
    getSupplyInterestFactor (syncSupplyInterest st a) d = getSupplyInterestFactor st d := by
  unfold getSupplyInterestFactor
  rw [(syncSupplyInterest_frame st a).1]

theorem getSupplyInterestFactor_setDeposit (st : HardState) (dep : Deposit) (d : Denom) :
    getSupplyInterestFactor (setDeposit st dep) d = getSupplyInterestFactor st d := rfl

theorem sendCoinsFromAccountToModule_ok_frame {st st2 : HardState} {a : Addr} {cs : Coins}
    (h : sendCoinsFromAccountToModule st a cs = .ok st2) :
    st2.deposits = st.deposits ∧
    st2.supplyInterestFactors = st.supplyInterestFactors ∧
    st2.borrowInterestFactors = st.borrowInterestFactors ∧
    st2.params = st.params ∧
    st2.borrows = st.borrows ∧
    st2.prices = st.prices ∧
    st2.ltvIndex = st.ltvIndex ∧
    st2.moduleCoins = Coins.add st.moduleCoins cs ∧
    st2.accountCoins = keyedSet Prod.fst st.accountCoins
      (a, (Coins.safeSub (getAccountCoins st a) cs).1) := by
  unfold sendCoinsFromAccountToModule at h
  by_cases hf : (Coins.safeSub (getAccountCoins st a) cs).2
  · simp [hf] at h
  · simp only [hf, Bool.false_eq_true, if_false, Except.ok.injEq] at h
    subst h
    exact ⟨rfl, rfl, rfl, rfl, rfl, rfl, rfl, rfl, rfl⟩

theorem sendCoinsFromModuleToAccount_ok_frame {st st2 : HardState} {a : Addr} {cs : Coins}
    (h : sendCoinsFromModuleToAccount st a cs = .ok st2) :
    st2.deposits = st.deposits ∧
    st2.supplyInterestFactors = st.supplyInterestFactors ∧
    st2.borrowInterestFactors = st.borrowInterestFactors ∧
    st2.params = st.params ∧
    st2.borrows = st.borrows ∧
    st2.prices = st.prices ∧
    st2.ltvIndex = st.ltvIndex ∧
    st2.moduleCoins = (Coins.safeSub st.moduleCoins cs).1 ∧
    st2.accountCoins = keyedSet Prod.fst st.accountCoins
      (a, Coins.add (getAccountCoins st a) cs) := by
  unfold sendCoinsFromModuleToAccount at h
  by_cases hf : (Coins.safeSub st.moduleCoins cs).2
  · simp [hf] at h
  · simp only [hf, Bool.false_eq_true, if_false, Except.ok.injEq] at h
    subst h
    exact ⟨rfl, rfl, rfl, rfl, rfl, rfl, rfl, rfl, rfl⟩

theorem updateItemInLtvIndex_frame (st : HardState) (p : ℚ) (b : Bool) (a : Addr) :
    (updateItemInLtvIndex st p b a).deposits = st.deposits ∧
    (updateItemInLtvIndex st p b a).supplyInterestFactors = st.supplyInterestFactors ∧
    (updateItemInLtvIndex st p b a).borrows = st.borrows ∧
    (updateItemInLtvIndex st p b a).accountCoins = st.accountCoins ∧
    (updateItemInLtvIndex st p b a).moduleCoins = st.moduleCoins ∧
    (updateItemInLtvIndex st p b a).params = st.params := by
  unfold updateItemInLtvIndex
  cases getStoreLTV st a with
  | error e => exact ⟨rfl, rfl, rfl, rfl, rfl, rfl⟩
  | ok pr =>
    cases pr with
    | mk ltv flag =>
      cases flag with
      | false => exact ⟨rfl, rfl, rfl, rfl, rfl, rfl⟩
      | true => exact ⟨rfl, rfl, rfl, rfl, rfl, rfl⟩

theorem initSupplyFactors_frame (coins : Coins) :
    ∀ (st : HardState),
    (initSupplyFactors st coins).deposits = st.deposits ∧
    (initSupplyFactors st coins).borrows = st.borrows ∧
    (initSupplyFactors st coins).params = st.params ∧
    (initSupplyFactors st coins).accountCoins = st.accountCoins ∧
    (initSupplyFactors st coins).moduleCoins = st.moduleCoins ∧
    (initSupplyFactors st coins).prices = st.prices ∧
    (initSupplyFactors st coins).ltvIndex = st.ltvIndex ∧
    (initSupplyFactors st coins).borrowInterestFactors = st.borrowInterestFactors := by
  induction coins with
  | nil => intro st; exact ⟨rfl, rfl, rfl, rfl, rfl, rfl, rfl, rfl⟩
  | cons c rest ih =>
    intro st
    unfold initSupplyFactors
    simp only [List.foldl_cons]
    have hstep : ∀ (s : HardState),
        ((match getSupplyInterestFactor s c.denom with
          | some _ => s
          | none =>
            match getMoneyMarket s c.denom with
            | some _ => setSupplyInterestFactor s c.denom 1
            | none => s) : HardState).deposits = s.deposits ∧
        (match getSupplyInterestFactor s c.denom with
          | some _ => s
          | none =>
            match getMoneyMarket s c.denom with
            | some _ => setSupplyInterestFactor s c.denom 1
            | none => s).borrows = s.borrows ∧
        (match getSupplyInterestFactor s c.denom with
          | some _ => s
          | none =>
            match getMoneyMarket s c.denom with
            | some _ => setSupplyInterestFactor s c.denom 1
            | none => s).params = s.params ∧
        (match getSupplyInterestFactor s c.denom with
          | some _ => s
          | none =>
            match getMoneyMarket s c.denom with
            | some _ => setSupplyInterestFactor s c.denom 1
            | none => s).accountCoins = s.accountCoins ∧
        (match getSupplyInterestFactor s c.denom with
          | some _ => s
          | none =>
            match getMoneyMarket s c.denom with
            | some _ => setSupplyInterestFactor s c.denom 1
            | none => s).moduleCoins = s.moduleCoins ∧
        (match getSupplyInterestFactor s c.denom with
          | some _ => s
          | none =>
            match getMoneyMarket s c.denom with
            | some _ => setSupplyInterestFactor s c.denom 1
            | none => s).prices = s.prices ∧
        (match getSupplyInterestFactor s c.denom with
          | some _ => s
          | none =>
            match getMoneyMarket s c.denom with
            | some _ => setSupplyInterestFactor s c.denom 1
            | none => s).ltvIndex = s.ltvIndex ∧
        (match getSupplyInterestFactor s c.denom with
          | some _ => s
          | none =>
            match getMoneyMarket s c.denom with
            | some _ => setSupplyInterestFactor s c.denom 1
            | none => s).borrowInterestFactors = s.borrowInterestFactors := by
      intro s
      cases getSupplyInterestFactor s c.denom with
      | some v => exact ⟨rfl, rfl, rfl, rfl, rfl, rfl, rfl, rfl⟩
      | none =>
        cases getMoneyMarket s c.denom with
        | some mm => exact ⟨rfl, rfl, rfl, rfl, rfl, rfl, rfl, rfl⟩
        | none => exact ⟨rfl, rfl, rfl, rfl, rfl, rfl, rfl, rfl⟩
    have hrest := ih (match getSupplyInterestFactor st c.denom with
      | some _ => st
      | none =>
        match getMoneyMarket st c.denom with
        | some _ => setSupplyInterestFactor st c.denom 1
        | none => st)
    unfold initSupplyFactors at hrest
    refine ⟨hrest.1.trans (hstep st).1, hrest.2.1.trans (hstep st).2.1,
      hrest.2.2.1.trans (hstep st).2.2.1, hrest.2.2.2.1.trans (hstep st).2.2.2.1,
      hrest.2.2.2.2.1.trans (hstep st).2.2.2.2.1,
      hrest.2.2.2.2.2.1.trans (hstep st).2.2.2.2.2.1,
      hrest.2.2.2.2.2.2.1.trans (hstep st).2.2.2.2.2.2.1,
      hrest.2.2.2.2.2.2.2.trans (hstep st).2.2.2.2.2.2.2⟩

theorem syncSupplyInterest_of_some {st : HardState} {addr : Addr} {dep : Deposit}
    (h : getDeposit st addr = some dep) :
    syncSupplyInterest st addr = setDeposit st
      { dep with
        amount := Coins.add dep.amount
          (dep.amount.foldl (syncStep st dep.amount) (dep.index, [])).2,
        index := (dep.amount.foldl (syncStep st dep.amount) (dep.index, [])).1 } := by
  unfold syncSupplyInterest
  rw [h]

/-- C10: Calling `SyncSupplyInterest` on an account that has no deposit
record is a total no-op: the function returns (without error — the Go
function has no error return) and the entire state is unchanged. -/
theorem c10_sync_without_deposit_is_noop (st : HardState) (addr : Addr)
    (h : getDeposit st addr = none) : syncSupplyInterest st addr = st := by
  unfold syncSupplyInterest
  rw [h]

/-- C3: for an asset with an existing index entry, `SyncSupplyInterest`
accrues `floor(stored/snapshot*current) - stored` (truncation toward zero,
which for the non-negative interest produced by non-decreasing factors is
the floor), adds it to that asset's balance and overwrites the snapshot
with the current global factor; for an asset without an entry it records
the current factor and accrues nothing. -/
theorem c3_sync_accrual_formula (st : HardState) (addr : Addr) (dep : Deposit)
    (hdep : getDeposit st addr = some dep)
    (hnd : (Coins.denomList dep.amount).Nodup)
    (c : Coin) (hc : c ∈ dep.amount)
    (curr : ℚ) (hcurr : getSupplyInterestFactor st c.denom = some curr)
    (ha : 0 ≤ Coins.amountOf dep.amount c.denom) :
    ∃ dep2, getDeposit (syncSupplyInterest st addr) addr = some dep2 ∧
      (∀ snap, indexValue dep.index c.denom = some snap → 0 < snap → snap ≤ curr →
        Coins.amountOf dep2.amount c.denom
          = Coins.amountOf dep.amount c.denom
            + (⌊(Coins.amountOf dep.amount c.denom : ℚ) / snap * curr⌋
               - Coins.amountOf dep.amount c.denom) ∧
        indexValue dep2.index c.denom = some curr) ∧
      (indexValue dep.index c.denom = none →
        Coins.amountOf dep2.amount c.denom = Coins.amountOf dep.amount c.denom ∧
        indexValue dep2.index c.denom = some curr) := by
  have hdd : dep.depositor = addr := getDeposit_depositor hdep
  have hfac : supplyFactorOf st c.denom = curr := by
    unfold supplyFactorOf
    rw [hcurr]
    rfl
  refine ⟨{ dep with
      amount := Coins.add dep.amount (dep.amount.foldl (syncStep st dep.amount) (dep.index, [])).2,
      index := (dep.amount.foldl (syncStep st dep.amount) (dep.index, [])).1 }, ?_, ?_, ?_⟩
  · unfold syncSupplyInterest
    rw [hdep]
    have := getDeposit_setDeposit_self st
      { dep with
        amount := Coins.add dep.amount (dep.amount.foldl (syncStep st dep.amount) (dep.index, [])).2,
        index := (dep.amount.foldl (syncStep st dep.amount) (dep.index, [])).1 }
    simpa [hdd] using this
  · intro snap hsnap hpos hle
    have hf := syncFold_entry st dep.amount dep.amount (dep.index, []) c hc hnd snap hsnap
    constructor
    · simp only
      rw [Coins.amountOf_add, hf.2, Coins.amountOf_nil, hfac]
      have hq : (0 : ℚ) ≤ (Coins.amountOf dep.amount c.denom : ℚ) / snap * curr
          - (Coins.amountOf dep.amount c.denom : ℚ) := by
        have hnn : (0 : ℚ) ≤ (Coins.amountOf dep.amount c.denom : ℚ) := by
          exact_mod_cast ha
        have hdiv : (0 : ℚ) ≤ (Coins.amountOf dep.amount c.denom : ℚ) / snap :=
          div_nonneg hnn (le_of_lt hpos)
        have h1 : (Coins.amountOf dep.amount c.denom : ℚ) / snap * snap
            ≤ (Coins.amountOf dep.amount c.denom : ℚ) / snap * curr :=
          mul_le_mul_of_nonneg_left hle hdiv
        rw [div_mul_cancel₀ _ (ne_of_gt hpos)] at h1
        linarith
      rw [decTruncateInt_of_nonneg hq]
      rw [show ((Coins.amountOf dep.amount c.denom : ℚ) / snap * curr
          - (Coins.amountOf dep.amount c.denom : ℚ))
          = ((Coins.amountOf dep.amount c.denom : ℚ) / snap * curr
            - ((Coins.amountOf dep.amount c.denom : Int) : ℚ)) from by norm_cast]
      rw [Int.floor_sub_int]
      ring
    · simp only
      rw [hf.1, hfac]
  · intro hnone
    have hf := syncFold_noentry st dep.amount dep.amount (dep.index, []) c hc hnd hnone
    constructor
    · simp only
      rw [Coins.amountOf_add, hf.2, Coins.amountOf_nil]
      ring
    · simp only
      rw [hf.1, hfac]

/-- C4: with no intervening change to the global supply factors, a second
`syncSupplyInterest` accrues nothing: the deposit record after the second
call equals the record after the first. -/
theorem c4_sync_idempotent (st : HardState) (addr : Addr) (dep : Deposit)
    (hdep : getDeposit st addr = some dep)
    (hnd : (Coins.denomList dep.amount).Nodup)
    (hfac : ∀ c ∈ dep.amount, ∃ f, getSupplyInterestFactor st c.denom = some f ∧ f ≠ 0) :
    getDeposit (syncSupplyInterest (syncSupplyInterest st addr) addr) addr
      = getDeposit (syncSupplyInterest st addr) addr := by
  have hdd : dep.depositor = addr := getDeposit_depositor hdep
  set res := dep.amount.foldl (syncStep st dep.amount) (dep.index, []) with hres
  set dep1 : Deposit := { dep with amount := Coins.add dep.amount res.2, index := res.1 }
    with hdep1
  have hsync1 : syncSupplyInterest st addr = setDeposit st dep1 := by
    unfold syncSupplyInterest
    rw [hdep]
  have hget1 : getDeposit (syncSupplyInterest st addr) addr = some dep1 := by
    rw [hsync1]
    have := getDeposit_setDeposit_self st dep1
    simpa [hdep1, hdd] using this
  -- every denom still held after the first sync has its snapshot at the
  -- current (unchanged) global factor, which is nonzero
  have hfixed : ∀ c2 ∈ dep1.amount,
      indexValue dep1.index c2.denom
        = some (supplyFactorOf (syncSupplyInterest st addr) c2.denom) ∧
      supplyFactorOf (syncSupplyInterest st addr) c2.denom ≠ 0 := by
    intro c2 hc2
    have hfacpres : supplyFactorOf (syncSupplyInterest st addr) c2.denom
        = supplyFactorOf st c2.denom := by
      unfold supplyFactorOf
      rw [getSupplyInterestFactor_syncSupplyInterest]
    -- c2's denom comes from the pre-sync amount
    have hmem1 : c2.denom ∈ Coins.denomList dep1.amount := List.mem_map_of_mem _ hc2
    have hne : Coins.amountOf dep1.amount c2.denom ≠ 0 := by
      have hnorm := @Coins.add_normal dep.amount res.2
      exact Coins.amountOf_ne_zero_of_mem_denomList hnorm.2 hnorm.1 hmem1
    have hsum : Coins.amountOf dep.amount c2.denom + Coins.amountOf res.2 c2.denom ≠ 0 := by
      rw [← Coins.amountOf_add]
      exact hne
    have hmem0 : c2.denom ∈ Coins.denomList dep.amount := by
      by_cases hamt : Coins.amountOf dep.amount c2.denom ≠ 0
      · by_contra habs
        exact hamt (Coins.amountOf_eq_zero_of_not_mem habs)
      · push_neg at hamt
        have : Coins.amountOf res.2 c2.denom ≠ 0 := by
          intro h0
          exact hsum (by rw [hamt, h0]; norm_num)
        rcases syncFold_interest_denoms st dep.amount dep.amount (dep.index, []) c2.denom
            (by rw [← hres]; exact this) with h | h
        · simp [Coins.amountOf_nil] at h
        · exact h
    rcases List.mem_map.mp hmem0 with ⟨c0, hc0, hc0d⟩
    rcases hfac c0 hc0 with ⟨f, hf, hf0⟩
    have hfval : supplyFactorOf st c2.denom = f := by
      unfold supplyFactorOf
      rw [← hc0d, hf]
      rfl
    constructor
    · rw [hfacpres, hfval, ← hc0d]
      cases hent : indexValue dep.index c0.denom with
      | some snap =>
        have := syncFold_entry st dep.amount dep.amount (dep.index, []) c0 hc0 hnd snap hent
        rw [← hres] at this
        rw [this.1]
        unfold supplyFactorOf
        rw [hf]
        rfl
      | none =>
        have := syncFold_noentry st dep.amount dep.amount (dep.index, []) c0 hc0 hnd hent
        rw [← hres] at this
        rw [this.1]
        unfold supplyFactorOf
        rw [hf]
        rfl
    · rw [hfacpres, hfval]
      exact hf0
  -- the second sync's fold is therefore the identity
  have hfold2 : dep1.amount.foldl
      (syncStep (syncSupplyInterest st addr) dep1.amount) (dep1.index, [])
      = (dep1.index, []) :=
    syncFold_fixed (syncSupplyInterest st addr) dep1.amount dep1.amount dep1.index hfixed
  have hnorm := @Coins.add_normal dep.amount res.2
  have hnil : Coins.add dep1.amount [] = dep1.amount :=
    Coins.add_nil_of_normal hnorm.1 hnorm.2
  rw [syncSupplyInterest_of_some hget1]
  simp only [hfold2, hnil]
  rw [hget1]
  have hd1d : dep1.depositor = addr := by
    rw [hdep1]
    exact hdd
  have hfin := getDeposit_setDeposit_self (syncSupplyInterest st addr) dep1
  rw [hd1d] at hfin
  exact hfin

/-- C1 (amended): a `Deposit` failing validation and a `Withdraw` failing
any of its checks return the error before the operation's own mutation —
no transfer, no record merge/subtract, no risk-index update — but the
state returned is the one left by the lazy factor initialization and the
two interest syncs performed at the start of the call, which do persist
on the error path. -/
theorem c1_error_paths_return_synced_state (st0 : HardState) (depositor : Addr)
    (coins : Coins) :
    (∀ pr e, getStoreLTV (initSupplyFactors st0 coins) depositor = .ok pr →
      validateDeposit (syncSupplyInterest
        (syncBorrowInterest (initSupplyFactors st0 coins) depositor) depositor) coins
        = some e →
      deposit st0 depositor coins
        = (syncSupplyInterest
            (syncBorrowInterest (initSupplyFactors st0 coins) depositor) depositor,
           some e)) ∧
    (∀ pr e, getStoreLTV (initSupplyFactors st0 coins) depositor = .ok pr →
      validateDeposit (syncSupplyInterest
        (syncBorrowInterest (initSupplyFactors st0 coins) depositor) depositor) coins
        = none →
      sendCoinsFromAccountToModule (syncSupplyInterest
        (syncBorrowInterest (initSupplyFactors st0 coins) depositor) depositor)
        depositor coins = .error e →
      deposit st0 depositor coins
        = (syncSupplyInterest
            (syncBorrowInterest (initSupplyFactors st0 coins) depositor) depositor,
           some (wrapDepositTransferError (syncSupplyInterest
             (syncBorrowInterest (initSupplyFactors st0 coins) depositor) depositor)
             depositor coins e))) ∧
    (∀ pr, getStoreLTV st0 depositor = .ok pr →
      getDeposit (syncSupplyInterest (syncBorrowInterest st0 depositor) depositor)
        depositor = none →
      withdraw st0 depositor coins
        = (syncSupplyInterest (syncBorrowInterest st0 depositor) depositor,
           some (.depositNotFound depositor))) ∧
    (∀ pr dep, getStoreLTV st0 depositor = .ok pr →
      getDeposit (syncSupplyInterest (syncBorrowInterest st0 depositor) depositor)
        depositor = some dep →
      (Coins.safeSub dep.amount coins).2 = true →
      withdraw st0 depositor coins
        = (syncSupplyInterest (syncBorrowInterest st0 depositor) depositor,
           some .negativeBorrowedCoins)) ∧
    (∀ pr dep, getStoreLTV st0 depositor = .ok pr →
      getDeposit (syncSupplyInterest (syncBorrowInterest st0 depositor) depositor)
        depositor = some dep →
      (Coins.safeSub dep.amount coins).2 = false →
      isWithinValidLtvRange
        (syncSupplyInterest (syncBorrowInterest st0 depositor) depositor)
        ⟨dep.depositor, (Coins.safeSub dep.amount coins).1, []⟩
        ((getBorrow (syncSupplyInterest (syncBorrowInterest st0 depositor) depositor)
          depositor).getD ⟨"", [], []⟩) = .ok false →
      withdraw st0 depositor coins
        = (syncSupplyInterest (syncBorrowInterest st0 depositor) depositor,
           some .invalidWithdrawAmount)) := by
  refine ⟨?_, ?_, ?_, ?_, ?_⟩
  · intro pr e h1 h2
    simp [deposit, h1, h2]
  · intro pr e h1 h2 h3
    simp [deposit, h1, h2, h3]
  · intro pr h1 h2
    simp [withdraw, h1, h2]
  · intro pr dep h1 h2 h3
    simp [withdraw, h1, h2, h3]
  · intro pr dep h1 h2 h3 h4
    simp [withdraw, h1, h2, h3, h4]

/-- C2 (amended): whenever the proposed post-operation borrow value is
nonzero and exceeds the proposed deposit value times the effective LTV
limit, `Withdraw` (resp. the spec-modelled `Borrow`) fails with the
solvency error, and the state after the failed call is the state produced
by the two interest syncs at the start of the call: no transfer and no
record or index mutation happens after the failure, but the syncs persist
(the pre-call state is not restored in general). -/
theorem c2_ltv_violation_fails_with_synced_state (st0 : HardState) (addr : Addr)
    (coins : Coins) :
    (∀ pr dep bv dv, getStoreLTV st0 addr = .ok pr →
      getDeposit (syncSupplyInterest (syncBorrowInterest st0 addr) addr) addr
        = some dep →
      (Coins.safeSub dep.amount coins).2 = false →
      getAssetValue (syncSupplyInterest (syncBorrowInterest st0 addr) addr)
        ((getBorrow (syncSupplyInterest (syncBorrowInterest st0 addr) addr) addr).getD
          ⟨"", [], []⟩).amount = .ok bv →
      getAssetValue (syncSupplyInterest (syncBorrowInterest st0 addr) addr)
        (Coins.safeSub dep.amount coins).1 = .ok dv →
      bv ≠ 0 →
      dv * effectiveLtvLimit (syncSupplyInterest (syncBorrowInterest st0 addr) addr)
        (Coins.safeSub dep.amount coins).1 < bv →
      withdraw st0 addr coins
        = (syncSupplyInterest (syncBorrowInterest st0 addr) addr,
           some .invalidWithdrawAmount)) ∧
    (∀ pr bv dv, getStoreLTV st0 addr = .ok pr →
      validateBorrow (syncSupplyInterest (syncBorrowInterest st0 addr) addr) coins
        = none →
      getAssetValue (syncSupplyInterest (syncBorrowInterest st0 addr) addr)
        (Coins.add ((getBorrow (syncSupplyInterest (syncBorrowInterest st0 addr) addr)
          addr).getD ⟨addr, [], []⟩).amount coins) = .ok bv →
      getAssetValue (syncSupplyInterest (syncBorrowInterest st0 addr) addr)
        ((getDeposit (syncSupplyInterest (syncBorrowInterest st0 addr) addr) addr).getD
          ⟨addr, [], []⟩).amount = .ok dv →
      bv ≠ 0 →
      dv * effectiveLtvLimit (syncSupplyInterest (syncBorrowInterest st0 addr) addr)
        ((getDeposit (syncSupplyInterest (syncBorrowInterest st0 addr) addr) addr).getD
          ⟨addr, [], []⟩).amount < bv →
      borrowOp st0 addr coins
        = (syncSupplyInterest (syncBorrowInterest st0 addr) addr,
           some .invalidBorrowAmount)) := by
  constructor
  · intro pr dep bv dv h1 h2 h3 hbv hdv hbv0 hgt
    have hltv : isWithinValidLtvRange
        (syncSupplyInterest (syncBorrowInterest st0 addr) addr)
        ⟨dep.depositor, (Coins.safeSub dep.amount coins).1, []⟩
        ((getBorrow (syncSupplyInterest (syncBorrowInterest st0 addr) addr) addr).getD
          ⟨"", [], []⟩) = .ok false := by
      unfold isWithinValidLtvRange
      rw [hbv]
      simp only
      rw [hdv]
      simp only [Except.ok.injEq]
      rw [decide_eq_false_iff_not]
      push_neg
      exact ⟨hbv0, lt_of_le_of_lt (le_of_eq rfl) hgt⟩
    simp [withdraw, h1, h2, h3, hltv]
  · intro pr bv dv h1 h2 hbv hdv hbv0 hgt
    have hltv : isWithinValidLtvRange
        (syncSupplyInterest (syncBorrowInterest st0 addr) addr)
        ((getDeposit (syncSupplyInterest (syncBorrowInterest st0 addr) addr) addr).getD
          ⟨addr, [], []⟩)
        ⟨addr, Coins.add ((getBorrow (syncSupplyInterest (syncBorrowInterest st0 addr)
          addr) addr).getD ⟨addr, [], []⟩).amount coins, []⟩ = .ok false := by
      unfold isWithinValidLtvRange
      rw [hbv]
      simp only
      rw [hdv]
      simp only [Except.ok.injEq]
      rw [decide_eq_false_iff_not]
      push_neg
      exact ⟨hbv0, lt_of_le_of_lt (le_of_eq rfl) hgt⟩
    simp [borrowOp, h1, h2, hltv]

theorem getSupplyInterestFactor_set_self (st : HardState) (d : Denom) (v : ℚ) :
    getSupplyInterestFactor (setSupplyInterestFactor st d v) d = some v := by
  unfold getSupplyInterestFactor setSupplyInterestFactor
  have := keyedGet_keyedSet_self (Prod.fst : Denom × ℚ → String)
    st.supplyInterestFactors (d, v)
  simp only at this
  rw [this]
  rfl

theorem getSupplyInterestFactor_set_other (st : HardState) (d d2 : Denom) (v : ℚ)
    (h : d2 ≠ d) :
    getSupplyInterestFactor (setSupplyInterestFactor st d v) d2
      = getSupplyInterestFactor st d2 := by
  unfold getSupplyInterestFactor setSupplyInterestFactor
  have := keyedGet_keyedSet_other (Prod.fst : Denom × ℚ → String)
    st.supplyInterestFactors (d, v) d2 h
  simp only at this
  rw [this]

theorem getAccountCoins_keyedSet_self (st : HardState) (a : Addr) (cs : Coins) :
    getAccountCoins { st with accountCoins := keyedSet Prod.fst st.accountCoins (a, cs) }
      a = cs := by
  unfold getAccountCoins
  have := keyedGet_keyedSet_self (Prod.fst : Addr × Coins → String)
    st.accountCoins (a, cs)
  simp only at this
  rw [this]
  rfl

theorem Coins.amountOf_negate (cs : Coins) (d : Denom) :
    Coins.amountOf (Coins.negate cs) d = - Coins.amountOf cs d := by
  induction cs with
  | nil => simp [Coins.negate, Coins.amountOf]
  | cons c rest ih =>
    by_cases h : c.denom = d
    · have hbeq : (c.denom == d) = true := by simpa using h
      simp [Coins.negate, Coins.amountOf, List.find?, hbeq]
    · have hbeq : (c.denom == d) = false := by simpa using h
      simp only [Coins.negate, List.map_cons, Coins.amountOf, List.find?, hbeq]
      simpa [Coins.negate, Coins.amountOf] using ih

theorem Coins.amountOf_sub (a b : Coins) (d : Denom) :
    Coins.amountOf (Coins.sub a b) d = Coins.amountOf a d - Coins.amountOf b d := by
  unfold Coins.sub Coins.safeSub
  simp only
  rw [Coins.amountOf_add, Coins.amountOf_negate]
  ring

theorem exists_entry_of_indexValue_isSome {idx : SupplyInterestFactors} {d : Denom}
    (h : (indexValue idx d).isSome) : ∃ e ∈ idx, e.denom = d := by
  unfold indexValue at h
  cases hf : idx.find? (fun e => e.denom == d) with
  | none => rw [hf] at h; simp at h
  | some e =>
    refine ⟨e, List.mem_of_find?_eq_some hf, ?_⟩
    have := List.find?_some hf
    simpa using this

theorem mem_denomList_of_amountOf_ne_zero {cs : Coins} {d : Denom}
    (h : Coins.amountOf cs d ≠ 0) : d ∈ Coins.denomList cs := by
  by_contra habs
  exact h (Coins.amountOf_eq_zero_of_not_mem habs)

theorem add_denom_source {a b : Coins} {d : Denom}
    (h : d ∈ Coins.denomList (Coins.add a b)) :
    Coins.amountOf a d ≠ 0 ∨ Coins.amountOf b d ≠ 0 := by
  have hnorm := @Coins.add_normal a b
  have hne := Coins.amountOf_ne_zero_of_mem_denomList hnorm.2 hnorm.1 h
  rw [Coins.amountOf_add] at hne
  by_cases ha : Coins.amountOf a d = 0
  · right
    intro hb
    exact hne (by rw [ha, hb]; norm_num)
  · exact Or.inl ha

/-- Any deposit record produced by `syncSupplyInterest` satisfies the
amount-to-index containment (every held asset has an index entry). -/
theorem depositIndexCovers_sync (st : HardState) (addr : Addr) :
    ∀ dep2, getDeposit (syncSupplyInterest st addr) addr = some dep2 →
      ∀ c ∈ dep2.amount, ∃ e ∈ dep2.index, e.denom = c.denom := by
  intro dep2 hget c hc
  cases hdep : getDeposit st addr with
  | none =>
    rw [syncSupplyInterest_of_none hdep, hdep] at hget
    cases hget
  | some dep =>
    have hdd : dep.depositor = addr := getDeposit_depositor hdep
    subst hdd
    rw [syncSupplyInterest_of_some hdep] at hget
    rw [getDeposit_setDeposit_self st
      { dep with
        amount := Coins.add dep.amount
          (dep.amount.foldl (syncStep st dep.amount) (dep.index, [])).2,
        index := (dep.amount.foldl (syncStep st dep.amount) (dep.index, [])).1 }] at hget
    cases hget
    -- now dep2 is the synced record
    have hmem : c.denom ∈ Coins.denomList (Coins.add dep.amount
        (dep.amount.foldl (syncStep st dep.amount) (dep.index, [])).2) :=
      List.mem_map_of_mem _ hc
    have hsrc := add_denom_source hmem
    have hmem0 : c.denom ∈ Coins.denomList dep.amount := by
      rcases hsrc with h | h
      · exact mem_denomList_of_amountOf_ne_zero h
      · rcases syncFold_interest_denoms st dep.amount dep.amount (dep.index, [])
          c.denom h with h2 | h2
        · simp [Coins.amountOf_nil] at h2
        · exact h2
    rcases List.mem_map.mp hmem0 with ⟨c0, hc0, hc0d⟩
    have hpres := syncFold_presence st dep.amount dep.amount (dep.index, []) c0 hc0
    rw [hc0d] at hpres
    exact exists_entry_of_indexValue_isSome hpres

/-- C6 (amended): on a successful `Withdraw`, when the withdrawn coins equal
the entire (synced) deposit balance set the record is deleted and the call
returns without touching the risk index — the pre-call index, stale entry
included, survives; otherwise the amounts are subtracted, the record is
persisted, and the risk index is updated. -/
theorem c6_withdraw_delete_or_subtract (st0 : HardState) (depositor : Addr)
    (coins : Coins) :
    ∀ pr dep st2, getStoreLTV st0 depositor = .ok pr →
      getDeposit (syncSupplyInterest (syncBorrowInterest st0 depositor) depositor)
        depositor = some dep →
      (Coins.safeSub dep.amount coins).2 = false →
      isWithinValidLtvRange
        (syncSupplyInterest (syncBorrowInterest st0 depositor) depositor)
        ⟨dep.depositor, (Coins.safeSub dep.amount coins).1, []⟩
        ((getBorrow (syncSupplyInterest (syncBorrowInterest st0 depositor) depositor)
          depositor).getD ⟨"", [], []⟩) = .ok true →
      sendCoinsFromModuleToAccount
        (syncSupplyInterest (syncBorrowInterest st0 depositor) depositor) depositor coins
        = .ok st2 →
      ((Coins.isEqual dep.amount coins = true →
        withdraw st0 depositor coins = (deleteDeposit st2 dep, none) ∧
        getDeposit (deleteDeposit st2 dep) depositor = none ∧
        (deleteDeposit st2 dep).ltvIndex = st0.ltvIndex) ∧
      (Coins.isEqual dep.amount coins = false →
        withdraw st0 depositor coins
          = (updateItemInLtvIndex
              (setDeposit st2 { dep with amount := Coins.sub dep.amount coins })
              pr.1 pr.2 depositor, none) ∧
        getDeposit (updateItemInLtvIndex
            (setDeposit st2 { dep with amount := Coins.sub dep.amount coins })
            pr.1 pr.2 depositor) depositor
          = some { dep with amount := Coins.sub dep.amount coins })) := by
  intro pr dep st2 h1 h2 h3 h4 h5
  have hdd : dep.depositor = depositor := getDeposit_depositor h2
  subst hdd
  constructor
  · intro heq
    refine ⟨by simp [withdraw, h1, h2, h3, h4, h5, heq], ?_, ?_⟩
    · unfold deleteDeposit getDeposit
      exact keyedGet_keyedRemove_self Deposit.depositor st2.deposits dep.depositor
    · unfold deleteDeposit
      have hst2 := (sendCoinsFromModuleToAccount_ok_frame h5).2.2.2.2.2.2.1
      have hsync1 := (syncSupplyInterest_frame (syncBorrowInterest st0 dep.depositor)
        dep.depositor).2.2.2.2.2.2.2
      have hsync2 := (syncBorrowInterest_frame st0 dep.depositor).2.2.2.2.2.2.2
      simp only
      rw [hst2, hsync1, hsync2]
  · intro hne
    refine ⟨by simp [withdraw, h1, h2, h3, h4, h5, hne], ?_⟩
    have hupd := (updateItemInLtvIndex_frame
      (setDeposit st2 { dep with amount := Coins.sub dep.amount coins })
      pr.1 pr.2 dep.depositor).1
    unfold getDeposit
    rw [hupd]
    exact getDeposit_setDeposit_self st2 { dep with amount := Coins.sub dep.amount coins }

theorem getDeposit_updateItemInLtvIndex (st : HardState) (p : ℚ) (b : Bool)
    (a a2 : Addr) :
    getDeposit (updateItemInLtvIndex st p b a) a2 = getDeposit st a2 := by
  unfold getDeposit
  rw [(updateItemInLtvIndex_frame st p b a).1]

theorem Coins.amountOf_nonneg {cs : Coins} (h : ∀ c ∈ cs, 0 ≤ c.amount) (d : Denom) :
    0 ≤ Coins.amountOf cs d := by
  unfold Coins.amountOf
  cases hf : cs.find? (fun c => c.denom == d) with
  | none => exact le_refl 0
  | some c => exact h c (List.mem_of_find?_eq_some hf)

theorem safeSub_flag_false_nonneg {a b : Coins} (h : (Coins.safeSub a b).2 = false) :
    ∀ c ∈ (Coins.safeSub a b).1, 0 ≤ c.amount := by
  unfold Coins.safeSub at h ⊢
  simp only at h ⊢
  intro c hc
  have := List.any_eq_false.mp h c hc
  simpa using this

theorem denomsSubsetOf_singleton {c : Coin} {cs : Coins}
    (h : Coins.denomsSubsetOf [c] cs = true) : c.denom ∈ Coins.denomList cs := by
  unfold Coins.denomsSubsetOf at h
  have := List.all_eq_true.mp h c.denom (by simp [Coins.denomList])
  simpa using this

/-- C8 (amended): after a sync, a successful Deposit, and a successful
Withdraw of valid (non-negative) coins, every asset in the deposit's
balance set has at least one index-list entry.  (The converse of the
original claim fails: index entries for assets emptied by a partial
withdrawal survive — see the counterexample.) -/
theorem c8_every_held_asset_has_index_entry :
    (∀ (st : HardState) (addr : Addr) (dep2 : Deposit),
      getDeposit (syncSupplyInterest st addr) addr = some dep2 →
      ∀ c ∈ dep2.amount, ∃ e ∈ dep2.index, e.denom = c.denom) ∧
    (∀ (st0 : HardState) (addr : Addr) (coins : Coins) (pr : ℚ × Bool) (st2 : HardState),
      getStoreLTV (initSupplyFactors st0 coins) addr = .ok pr →
      validateDeposit (syncSupplyInterest
        (syncBorrowInterest (initSupplyFactors st0 coins) addr) addr) coins = none →
      sendCoinsFromAccountToModule (syncSupplyInterest
        (syncBorrowInterest (initSupplyFactors st0 coins) addr) addr) addr coins
        = .ok st2 →
      (deposit st0 addr coins).2 = none ∧
      (∀ dep2, getDeposit (deposit st0 addr coins).1 addr = some dep2 →
        ∀ c ∈ dep2.amount, ∃ e ∈ dep2.index, e.denom = c.denom)) ∧
    (∀ (st0 : HardState) (addr : Addr) (coins : Coins) (pr : ℚ × Bool) (dep : Deposit)
        (st2 : HardState),
      getStoreLTV st0 addr = .ok pr →
      getDeposit (syncSupplyInterest (syncBorrowInterest st0 addr) addr) addr
        = some dep →
      (Coins.safeSub dep.amount coins).2 = false →
      isWithinValidLtvRange (syncSupplyInterest (syncBorrowInterest st0 addr) addr)
        ⟨dep.depositor, (Coins.safeSub dep.amount coins).1, []⟩
        ((getBorrow (syncSupplyInterest (syncBorrowInterest st0 addr) addr)
          addr).getD ⟨"", [], []⟩) = .ok true →
      sendCoinsFromModuleToAccount
        (syncSupplyInterest (syncBorrowInterest st0 addr) addr) addr coins = .ok st2 →
      (∀ c ∈ coins, 0 ≤ c.amount) →
      (∀ dep2, getDeposit (withdraw st0 addr coins).1 addr = some dep2 →
        ∀ c ∈ dep2.amount, ∃ e ∈ dep2.index, e.denom = c.denom)) := by
  refine ⟨depositIndexCovers_sync, ?_, ?_⟩
  · intro st0 addr coins pr st2 h1 h2 h3
    cases hcd : getDeposit st2 addr with
    | some currDeposit =>
      have hdep : deposit st0 addr coins
          = (updateItemInLtvIndex (setDeposit st2
              ⟨addr, Coins.add currDeposit.amount coins,
                (coins.filterMap (fun c =>
                  if Coins.denomsSubsetOf [c] currDeposit.amount then none
                  else some ⟨c.denom, supplyFactorOf st2 c.denom⟩))
                ++ currDeposit.index⟩) pr.1 pr.2 addr, none) := by
        simp [deposit, h1, h2, h3, hcd]
      refine ⟨by rw [hdep], ?_⟩
      intro dep2 hget c hc
      rw [hdep] at hget
      simp only at hget
      rw [getDeposit_updateItemInLtvIndex _ pr.1 pr.2 addr addr] at hget
      rw [getDeposit_setDeposit_self st2 _] at hget
      cases hget
      simp only at hc ⊢
      -- the synced pre-merge record satisfies containment
      have hcov : ∀ x ∈ currDeposit.amount, ∃ e ∈ currDeposit.index, e.denom = x.denom := by
        have hst2dep : getDeposit st2 addr
            = getDeposit (syncSupplyInterest
              (syncBorrowInterest (initSupplyFactors st0 coins) addr) addr) addr := by
          unfold getDeposit
          rw [(sendCoinsFromAccountToModule_ok_frame h3).1]
        exact depositIndexCovers_sync _ addr currDeposit (hst2dep ▸ hcd)
      have hmem : c.denom ∈ Coins.denomList (Coins.add currDeposit.amount coins) :=
        List.mem_map_of_mem _ hc
      have hfromCurr : c.denom ∈ Coins.denomList currDeposit.amount →
          ∃ e ∈ (coins.filterMap (fun x =>
            if Coins.denomsSubsetOf [x] currDeposit.amount then none
            else some ⟨x.denom, supplyFactorOf st2 x.denom⟩)) ++ currDeposit.index,
            e.denom = c.denom := by
        intro hmc
        rcases List.mem_map.mp hmc with ⟨x, hx, hxd⟩
        rcases hcov x hx with ⟨e, he, hed⟩
        exact ⟨e, List.mem_append_right _ he, by rw [hed, hxd]⟩
      rcases add_denom_source hmem with hsrc | hsrc
      · exact hfromCurr (mem_denomList_of_amountOf_ne_zero hsrc)
      · have hmc : c.denom ∈ Coins.denomList coins := mem_denomList_of_amountOf_ne_zero hsrc
        rcases List.mem_map.mp hmc with ⟨c0, hc0, hc0d⟩
        by_cases hsub : Coins.denomsSubsetOf [c0] currDeposit.amount
        · exact hfromCurr (hc0d ▸ denomsSubsetOf_singleton hsub)
        · refine ⟨⟨c0.denom, supplyFactorOf st2 c0.denom⟩, List.mem_append_left _ ?_, hc0d⟩
          exact List.mem_filterMap.mpr ⟨c0, hc0, by
            rw [if_neg hsub]⟩
    | none =>
      have hdep : deposit st0 addr coins
          = (updateItemInLtvIndex (setDeposit st2
              ⟨addr, coins, coins.map (fun c => ⟨c.denom, supplyFactorOf st2 c.denom⟩)⟩)
              pr.1 pr.2 addr, none) := by
        simp [deposit, h1, h2, h3, hcd]
      refine ⟨by rw [hdep], ?_⟩
      intro dep2 hget c hc
      rw [hdep] at hget
      simp only at hget
      rw [getDeposit_updateItemInLtvIndex _ pr.1 pr.2 addr addr] at hget
      rw [getDeposit_setDeposit_self st2 _] at hget
      cases hget
      simp only at hc ⊢
      exact ⟨⟨c.denom, supplyFactorOf st2 c.denom⟩,
        List.mem_map_of_mem _ hc, rfl⟩
  · intro st0 addr coins pr dep st2 h1 h2 h3 h4 h5 hpos dep2 hget c hc
    have hdd : dep.depositor = addr := getDeposit_depositor h2
    subst hdd
    by_cases heq : Coins.isEqual dep.amount coins
    · have hw : withdraw st0 dep.depositor coins = (deleteDeposit st2 dep, none) := by
        simp [withdraw, h1, h2, h3, h4, h5, heq]
      rw [hw] at hget
      simp only at hget
      unfold deleteDeposit getDeposit at hget
      rw [keyedGet_keyedRemove_self Deposit.depositor st2.deposits dep.depositor] at hget
      cases hget
    · have hw : withdraw st0 dep.depositor coins
          = (updateItemInLtvIndex
              (setDeposit st2 { dep with amount := Coins.sub dep.amount coins })
              pr.1 pr.2 dep.depositor, none) := by
        simp [withdraw, h1, h2, h3, h4, h5, heq]
      rw [hw] at hget
      simp only at hget
      rw [getDeposit_updateItemInLtvIndex _ pr.1 pr.2 dep.depositor dep.depositor] at hget
      rw [getDeposit_setDeposit_self st2 _] at hget
      cases hget
      simp only at hc ⊢
      -- the remaining denoms all come from the synced record's amounts
      have hmemd : c.denom ∈ Coins.denomList dep.amount := by
        have hmem : c.denom ∈ Coins.denomList (Coins.sub dep.amount coins) :=
          List.mem_map_of_mem _ hc
        unfold Coins.sub at hmem
        rcases add_denom_source hmem with hsrc | hsrc
        · exact mem_denomList_of_amountOf_ne_zero hsrc
        · -- a denom coming only from the negated request would be negative
          rw [Coins.amountOf_negate] at hsrc
          have hcoins : Coins.amountOf coins c.denom ≠ 0 := by
            intro h0
            exact hsrc (by rw [h0]; norm_num)
          by_contra habs
          have hdep0 : Coins.amountOf dep.amount c.denom = 0 :=
            Coins.amountOf_eq_zero_of_not_mem habs
          have hval : Coins.amountOf (Coins.sub dep.amount coins) c.denom
              = - Coins.amountOf coins c.denom := by
            rw [Coins.amountOf_sub, hdep0]
            ring
          have hnn := Coins.amountOf_nonneg (safeSub_flag_false_nonneg h3) c.denom
          have hcnn := Coins.amountOf_nonneg hpos c.denom
          rw [show (Coins.safeSub dep.amount coins).1 = Coins.sub dep.amount coins from rfl,
            hval] at hnn
          have : Coins.amountOf coins c.denom = 0 := le_antisymm (by linarith) hcnn
          exact hcoins this
      rcases List.mem_map.mp hmemd with ⟨x, hx, hxd⟩
      rcases depositIndexCovers_sync _ dep.depositor dep h2 x hx with ⟨e, he, hed⟩
      exact ⟨e, he, by rw [hed, hxd]⟩

theorem getMoneyMarket_setSupplyInterestFactor (st : HardState) (d d2 : Denom) (v : ℚ) :
    getMoneyMarket (setSupplyInterestFactor st d v) d2 = getMoneyMarket st d2 := rfl

/-- The lazy initialization loop writes factor 1 for a requested denom that
has a money market but no stored factor (and never overwrites an existing
factor of 1). -/
theorem initSupplyFactors_writes_one (dn : Denom) (mm : MoneyMarket) :
    ∀ (coins : Coins) (st : HardState), getMoneyMarket st dn = some mm →
      (getSupplyInterestFactor st dn = some 1 ∨
        (getSupplyInterestFactor st dn = none ∧ ∃ c ∈ coins, c.denom = dn)) →
      getSupplyInterestFactor (initSupplyFactors st coins) dn = some 1 := by
  intro coins
  induction coins with
  | nil =>
    intro st hmm hinv
    rcases hinv with h | h
    · exact h
    · rcases h.2 with ⟨c, hc, _⟩
      simp at hc
  | cons c rest ih =>
    intro st hmm hinv
    unfold initSupplyFactors
    simp only [List.foldl_cons]
    have hfold : ∀ s : HardState, List.foldl (fun s c =>
        match getSupplyInterestFactor s c.denom with
        | some _ => s
        | none =>
          match getMoneyMarket s c.denom with
          | some _ => setSupplyInterestFactor s c.denom 1
          | none => s) s rest = initSupplyFactors s rest := fun s => rfl
    cases hex : getSupplyInterestFactor st c.denom with
    | some v =>
      simp only [hex]
      rw [hfold]
      apply ih st hmm
      rcases hinv with h | h
      · exact Or.inl h
      · refine Or.inr ⟨h.1, ?_⟩
        rcases h.2 with ⟨x, hx, hxd⟩
        rcases List.mem_cons.mp hx with hx1 | hx1
        · subst hx1
          rw [hxd] at hex
          rw [h.1] at hex
          cases hex
        · exact ⟨x, hx1, hxd⟩
    | none =>
      simp only [hex]
      by_cases hcd : c.denom = dn
      · subst hcd
        rw [hmm]
        simp only
        rw [hfold]
        apply ih (setSupplyInterestFactor st c.denom 1)
          (by rw [getMoneyMarket_setSupplyInterestFactor]; exact hmm)
        exact Or.inl (getSupplyInterestFactor_set_self st c.denom 1)
      · cases hmmc : getMoneyMarket st c.denom with
        | none =>
          simp only
          rw [hfold]
          apply ih st hmm
          rcases hinv with h | h
          · exact Or.inl h
          · refine Or.inr ⟨h.1, ?_⟩
            rcases h.2 with ⟨x, hx, hxd⟩
            rcases List.mem_cons.mp hx with hx1 | hx1
            · subst hx1
              exact absurd hxd hcd
            · exact ⟨x, hx1, hxd⟩
        | some mm2 =>
          simp only
          rw [hfold]
          apply ih (setSupplyInterestFactor st c.denom 1)
            (by rw [getMoneyMarket_setSupplyInterestFactor]; exact hmm)
          rcases hinv with h | h
          · exact Or.inl (by
              rw [getSupplyInterestFactor_set_other st c.denom dn 1 (fun he => hcd he.symm)]
              exact h)
          · refine Or.inr ⟨by
              rw [getSupplyInterestFactor_set_other st c.denom dn 1 (fun he => hcd he.symm)]
              exact h.1, ?_⟩
            rcases h.2 with ⟨x, hx, hxd⟩
            rcases List.mem_cons.mp hx with hx1 | hx1
            · subst hx1
              exact absurd hxd hcd
            · exact ⟨x, hx1, hxd⟩

theorem indexValue_map_coins {cs : Coins} {d : Denom} (g : Denom → ℚ)
    (h : d ∈ Coins.denomList cs) :
    indexValue (cs.map (fun c => ⟨c.denom, g c.denom⟩)) d = some (g d) := by
  induction cs with
  | nil => simp [Coins.denomList] at h
  | cons c rest ih =>
    by_cases hc : c.denom = d
    · subst hc
      simp [indexValue, List.find?]
    · have hbeq : (c.denom == d) = false := by simpa using hc
      simp only [List.map_cons, indexValue, List.find?, hbeq]
      have hd : d ∈ Coins.denomList rest := by
        have : d ∈ c.denom :: Coins.denomList rest := by
          simpa [Coins.denomList] using h
        rcases List.mem_cons.mp this with h1 | h1
        · exact absurd h1.symm hc
        · exact h1
      simpa [indexValue] using ih hd

theorem getSupplyInterestFactor_updateItemInLtvIndex (st : HardState) (p : ℚ) (b : Bool)
    (a : Addr) (d : Denom) :
    getSupplyInterestFactor (updateItemInLtvIndex st p b a) d
      = getSupplyInterestFactor st d := by
  unfold getSupplyInterestFactor
  rw [(updateItemInLtvIndex_frame st p b a).2.1]

/-- C9: depositing an asset that has no stored global supply factor (but an
active money market) initializes the factor to 1 before anything reads it;
on the depositor's first deposit the account's snapshot for the asset is
that current factor (1), and an immediate sync accrues zero interest for
the asset. -/
theorem c9_fresh_asset_initialization (st0 : HardState) (addr : Addr) (coins : Coins)
    (dn : Denom) (mm : MoneyMarket) (pr : ℚ × Bool) (st2 : HardState)
    (hmm : getMoneyMarket st0 dn = some mm)
    (hnofac : getSupplyInterestFactor st0 dn = none)
    (hreq : ∃ c ∈ coins, c.denom = dn)
    (hnodep : getDeposit st0 addr = none)
    (hnd : (Coins.denomList coins).Nodup)
    (h1 : getStoreLTV (initSupplyFactors st0 coins) addr = .ok pr)
    (h2 : validateDeposit (syncSupplyInterest
      (syncBorrowInterest (initSupplyFactors st0 coins) addr) addr) coins = none)
    (h3 : sendCoinsFromAccountToModule (syncSupplyInterest
      (syncBorrowInterest (initSupplyFactors st0 coins) addr) addr) addr coins
      = .ok st2) :
    (deposit st0 addr coins).2 = none ∧
    getSupplyInterestFactor (deposit st0 addr coins).1 dn = some 1 ∧
    (∃ dep2, getDeposit (deposit st0 addr coins).1 addr = some dep2 ∧
      dep2.amount = coins ∧ indexValue dep2.index dn = some 1) ∧
    (∃ dep3, getDeposit (syncSupplyInterest (deposit st0 addr coins).1 addr) addr
        = some dep3 ∧
      Coins.amountOf dep3.amount dn = Coins.amountOf coins dn) := by
  have hdn_mem : dn ∈ Coins.denomList coins := by
    rcases hreq with ⟨c, hc, hcd⟩
    exact hcd ▸ List.mem_map_of_mem _ hc
  -- the factor is written by the initialization loop and survives the rest
  have hfac_i : getSupplyInterestFactor (initSupplyFactors st0 coins) dn = some 1 :=
    initSupplyFactors_writes_one dn mm coins st0 hmm (Or.inr ⟨hnofac, hreq⟩)
  have hdi : getDeposit (initSupplyFactors st0 coins) addr = none := by
    unfold getDeposit
    rw [(initSupplyFactors_frame coins st0).1]
    exact hnodep
  have hdB : getDeposit (syncBorrowInterest (initSupplyFactors st0 coins) addr) addr
      = none := by
    rw [getDeposit_syncBorrowInterest]
    exact hdi
  have hs1 : syncSupplyInterest (syncBorrowInterest (initSupplyFactors st0 coins) addr)
      addr = syncBorrowInterest (initSupplyFactors st0 coins) addr :=
    syncSupplyInterest_of_none hdB
  have hd1 : getDeposit (syncSupplyInterest
      (syncBorrowInterest (initSupplyFactors st0 coins) addr) addr) addr = none := by
    rw [hs1]
    exact hdB
  have hd2 : getDeposit st2 addr = none := by
    unfold getDeposit
    rw [(sendCoinsFromAccountToModule_ok_frame h3).1]
    exact hd1
  have hfac1 : getSupplyInterestFactor (syncSupplyInterest
      (syncBorrowInterest (initSupplyFactors st0 coins) addr) addr) dn = some 1 := by
    rw [hs1, getSupplyInterestFactor_syncBorrowInterest]
    exact hfac_i
  have hfac2 : getSupplyInterestFactor st2 dn = some 1 := by
    unfold getSupplyInterestFactor
    rw [(sendCoinsFromAccountToModule_ok_frame h3).2.1]
    exact hfac1
  have hsf2 : supplyFactorOf st2 dn = 1 := by
    unfold supplyFactorOf
    rw [hfac2]
    rfl
  have hdep : deposit st0 addr coins
      = (updateItemInLtvIndex (setDeposit st2
          ⟨addr, coins, coins.map (fun c => ⟨c.denom, supplyFactorOf st2 c.denom⟩)⟩)
          pr.1 pr.2 addr, none) := by
    simp [deposit, h1, h2, h3, hd2]
  have hfacF : getSupplyInterestFactor (deposit st0 addr coins).1 dn = some 1 := by
    rw [hdep]
    simp only
    rw [getSupplyInterestFactor_updateItemInLtvIndex, getSupplyInterestFactor_setDeposit]
    exact hfac2
  have hgetF : getDeposit (deposit st0 addr coins).1 addr
      = some ⟨addr, coins, coins.map (fun c => ⟨c.denom, supplyFactorOf st2 c.denom⟩)⟩ := by
    rw [hdep]
    simp only
    rw [getDeposit_updateItemInLtvIndex]
    exact getDeposit_setDeposit_self st2 _
  have hidx : indexValue (coins.map (fun c => ⟨c.denom, supplyFactorOf st2 c.denom⟩)) dn
      = some 1 := by
    rw [indexValue_map_coins (fun d => supplyFactorOf st2 d) hdn_mem]
    rw [hsf2]
  refine ⟨by rw [hdep], hfacF, ⟨_, hgetF, rfl, hidx⟩, ?_⟩
  -- the immediate sync accrues nothing for the fresh asset
  rcases hreq with ⟨cstar, hcs, hcsd⟩
  set F := (deposit st0 addr coins).1 with hF
  set rec : Deposit :=
    ⟨addr, coins, coins.map (fun c => ⟨c.denom, supplyFactorOf st2 c.denom⟩)⟩ with hrec
  have hsfF : supplyFactorOf F dn = 1 := by
    unfold supplyFactorOf
    rw [hF, hfacF]
    rfl
  have hentry : indexValue rec.index cstar.denom = some 1 := by
    rw [hrec]
    simp only
    rw [hcsd]
    exact hidx
  have hfe := syncFold_entry F rec.amount rec.amount (rec.index, []) cstar hcs
    (by rw [hrec]; exact hnd) 1 hentry
  have hint : decTruncateInt ((Coins.amountOf rec.amount cstar.denom : ℚ) / 1
      * supplyFactorOf F cstar.denom - (Coins.amountOf rec.amount cstar.denom : ℚ))
      = 0 := by
    rw [hcsd, hsfF]
    rw [div_one, mul_one, sub_self]
    exact decTruncateInt_zero
  refine ⟨{ rec with
      amount := Coins.add rec.amount
        (rec.amount.foldl (syncStep F rec.amount) (rec.index, [])).2,
      index := (rec.amount.foldl (syncStep F rec.amount) (rec.index, [])).1 }, ?_, ?_⟩
  · rw [syncSupplyInterest_of_some hgetF]
    exact getDeposit_setDeposit_self F _
  · simp only
    rw [Coins.amountOf_add]
    rw [show Coins.amountOf
        (rec.amount.foldl (syncStep F rec.amount) (rec.index, [])).2 dn = 0 from by
      have := hfe.2
      rw [Coins.amountOf_nil, hint] at this
      rw [← hcsd]
      simpa using this]
    norm_num

theorem mem_denomList_calculatePaymentAmount {owed coins : Coins} {d : Denom}
    (h : d ∈ Coins.denomList (calculatePaymentAmount owed coins)) :
    d ∈ Coins.denomList coins := by
  induction coins with
  | nil => simp [calculatePaymentAmount, Coins.denomList] at h
  | cons c rest ih =>
    unfold calculatePaymentAmount at h
    simp only [List.filterMap_cons] at h
    by_cases hm : min c.amount (Coins.amountOf owed c.denom) = 0
    · rw [if_pos hm] at h
      exact List.mem_cons_of_mem _ (ih (by simpa [calculatePaymentAmount] using h))
    · rw [if_neg hm] at h
      simp only [Coins.denomList, List.map_cons, List.mem_cons] at h
      rcases h with h | h
      · simp [Coins.denomList, h]
      · exact List.mem_cons_of_mem _ (ih (by simpa [calculatePaymentAmount, Coins.denomList] using h))

theorem calculatePaymentAmount_amountOf {owed coins : Coins}
    (hnd : (Coins.denomList coins).Nodup) {d : Denom} (h : d ∈ Coins.denomList coins) :
    Coins.amountOf (calculatePaymentAmount owed coins) d
      = min (Coins.amountOf coins d) (Coins.amountOf owed d) := by
  induction coins with
  | nil => simp [Coins.denomList] at h
  | cons c rest ih =>
    have hndc : (c.denom :: Coins.denomList rest).Nodup := by
      simpa [Coins.denomList] using hnd
    have hnd2 := List.nodup_cons.mp hndc
    unfold calculatePaymentAmount
    simp only [List.filterMap_cons]
    by_cases hcd : c.denom = d
    · subst hcd
      have hcoin : Coins.amountOf (c :: rest) c.denom = c.amount := by
        simp [Coins.amountOf, List.find?]
      by_cases hm : min c.amount (Coins.amountOf owed c.denom) = 0
      · rw [if_pos hm]
        have hnot : c.denom ∉ Coins.denomList (calculatePaymentAmount owed rest) := by
          intro hmem
          exact hnd2.1 (mem_denomList_calculatePaymentAmount hmem)
        rw [show (List.filterMap (fun c => if min c.amount (Coins.amountOf owed c.denom) = 0
            then none else some ⟨c.denom, min c.amount (Coins.amountOf owed c.denom)⟩) rest)
            = calculatePaymentAmount owed rest from rfl]
        rw [Coins.amountOf_eq_zero_of_not_mem hnot, hcoin]
        omega
      · rw [if_neg hm]
        have : Coins.amountOf (⟨c.denom, min c.amount (Coins.amountOf owed c.denom)⟩ ::
            calculatePaymentAmount owed rest) c.denom
            = min c.amount (Coins.amountOf owed c.denom) := by
          simp [Coins.amountOf, List.find?]
        rw [show (List.filterMap (fun c => if min c.amount (Coins.amountOf owed c.denom) = 0
            then none else some ⟨c.denom, min c.amount (Coins.amountOf owed c.denom)⟩) rest)
            = calculatePaymentAmount owed rest from rfl]
        rw [this, hcoin]
    · have hbeq : (c.denom == d) = false := by simpa using hcd
      have hd : d ∈ Coins.denomList rest := by
        have : d ∈ c.denom :: Coins.denomList rest := by
          simpa [Coins.denomList] using h
        rcases List.mem_cons.mp this with h1 | h1
        · exact absurd h1.symm hcd
        · exact h1
      have hcoin : Coins.amountOf (c :: rest) d = Coins.amountOf rest d := by
        simp only [Coins.amountOf, List.find?, hbeq]
      rw [show (List.filterMap (fun c => if min c.amount (Coins.amountOf owed c.denom) = 0
          then none else some ⟨c.denom, min c.amount (Coins.amountOf owed c.denom)⟩) rest)
          = calculatePaymentAmount owed rest from rfl]
      by_cases hm : min c.amount (Coins.amountOf owed c.denom) = 0
      · rw [if_pos hm, hcoin]
        exact ih hnd2.2 hd
      · rw [if_neg hm]
        have hstep : Coins.amountOf (⟨c.denom, min c.amount (Coins.amountOf owed c.denom)⟩ ::
            calculatePaymentAmount owed rest) d
            = Coins.amountOf (calculatePaymentAmount owed rest) d := by
          simp only [Coins.amountOf, List.find?, hbeq]
        rw [hstep, hcoin]
        exact ih hnd2.2 hd

theorem getBorrow_deleteBorrow_self (st : HardState) (b : Borrow) :
    getBorrow (deleteBorrow st b) b.borrower = none := by
  unfold getBorrow deleteBorrow
  exact keyedGet_keyedRemove_self Borrow.borrower st.borrows b.borrower

/-- C5 (spec-modelled): a successful `Repay` transfers exactly the
element-wise minimum of requested and owed (`CalculatePaymentAmount`) from
the payer to the pool — never the requested amount — and leaves the
borrow record's residual at `owed - min(owed, requested)` per asset
(zero residual deletes the record). -/
theorem c5_repay_caps_payment_at_owed (st0 : HardState) (payer borrower : Addr)
    (coins : Coins) (bor : Borrow) (st2 : HardState)
    (hnd : (Coins.denomList coins).Nodup)
    (hbor : getBorrow (syncSupplyInterest (syncBorrowInterest st0 borrower) borrower)
      borrower = some bor)
    (hdenoms : ∀ c ∈ coins, (Coins.denomList bor.amount).contains c.denom = true)
    (hfunds : ∀ c ∈ calculatePaymentAmount bor.amount coins,
      ¬ (Coins.amountOf (getAccountCoins
        (syncSupplyInterest (syncBorrowInterest st0 borrower) borrower) payer) c.denom
        < c.amount))
    (hsend : sendCoinsFromAccountToModule
      (syncSupplyInterest (syncBorrowInterest st0 borrower) borrower) payer
      (calculatePaymentAmount bor.amount coins) = .ok st2) :
    (repay st0 payer borrower coins).2 = none ∧
    (∀ d ∈ Coins.denomList coins,
      Coins.amountOf (calculatePaymentAmount bor.amount coins) d
        = min (Coins.amountOf coins d) (Coins.amountOf bor.amount d)) ∧
    (∀ d, Coins.amountOf (getAccountCoins (repay st0 payer borrower coins).1 payer) d
        = Coins.amountOf (getAccountCoins
            (syncSupplyInterest (syncBorrowInterest st0 borrower) borrower) payer) d
          - Coins.amountOf (calculatePaymentAmount bor.amount coins) d) ∧
    (∀ d, Coins.amountOf (repay st0 payer borrower coins).1.moduleCoins d
        = Coins.amountOf (syncSupplyInterest
            (syncBorrowInterest st0 borrower) borrower).moduleCoins d
          + Coins.amountOf (calculatePaymentAmount bor.amount coins) d) ∧
    (∀ d, ((getBorrow (repay st0 payer borrower coins).1 borrower).map
        (fun b => Coins.amountOf b.amount d)).getD 0
        = Coins.amountOf bor.amount d
          - Coins.amountOf (calculatePaymentAmount bor.amount coins) d) := by
  have hbb : bor.borrower = borrower := getBorrow_borrower hbor
  subst hbb
  have hfind1 : coins.find?
      (fun c => !decide (c.denom ∈ Coins.denomList bor.amount)) = none := by
    rw [List.find?_eq_none]
    intro c hc
    have hmem : c.denom ∈ Coins.denomList bor.amount := by
      simpa using hdenoms c hc
    simp [hmem]
  have hfind2 : (calculatePaymentAmount bor.amount coins).find?
      (fun c => decide (Coins.amountOf (getAccountCoins
        (syncSupplyInterest (syncBorrowInterest st0 bor.borrower) bor.borrower) payer)
        c.denom < c.amount)) = none := by
    rw [List.find?_eq_none]
    intro c hc
    simpa using hfunds c hc
  have hframe := sendCoinsFromAccountToModule_ok_frame hsend
  have hacct2 : getAccountCoins st2 payer
      = (Coins.safeSub (getAccountCoins
          (syncSupplyInterest (syncBorrowInterest st0 bor.borrower) bor.borrower) payer)
          (calculatePaymentAmount bor.amount coins)).1 := by
    unfold getAccountCoins
    rw [hframe.2.2.2.2.2.2.2.2]
    have := keyedGet_keyedSet_self (Prod.fst : Addr × Coins → String)
      (syncSupplyInterest (syncBorrowInterest st0 bor.borrower) bor.borrower).accountCoins
      (payer, (Coins.safeSub (getAccountCoins
        (syncSupplyInterest (syncBorrowInterest st0 bor.borrower) bor.borrower) payer)
        (calculatePaymentAmount bor.amount coins)).1)
    simp only at this
    rw [this]
    rfl
  have hsafe1 : (Coins.safeSub (getAccountCoins
      (syncSupplyInterest (syncBorrowInterest st0 bor.borrower) bor.borrower) payer)
      (calculatePaymentAmount bor.amount coins)).1
      = Coins.sub (getAccountCoins
        (syncSupplyInterest (syncBorrowInterest st0 bor.borrower) bor.borrower) payer)
        (calculatePaymentAmount bor.amount coins) := rfl
  by_cases hemp : (Coins.sub bor.amount (calculatePaymentAmount bor.amount coins)).isEmpty
  · have hrp : repay st0 payer bor.borrower coins = (deleteBorrow st2 bor, none) := by
      simp [repay, hbor, hfind1, hfind2, hsend, hemp]
    have hsubnil : Coins.sub bor.amount (calculatePaymentAmount bor.amount coins) = [] :=
      List.isEmpty_iff.mp hemp
    refine ⟨by rw [hrp], fun d hd => calculatePaymentAmount_amountOf hnd hd, ?_, ?_, ?_⟩
    · intro d
      simp only [hrp]
      have hk : getAccountCoins (deleteBorrow st2 bor) payer
          = getAccountCoins st2 payer := rfl
      rw [hk, hacct2, hsafe1, Coins.amountOf_sub]
    · intro d
      simp only [hrp]
      have hk : (deleteBorrow st2 bor).moduleCoins = st2.moduleCoins := rfl
      rw [hk, hframe.2.2.2.2.2.2.2.1, Coins.amountOf_add]
    · intro d
      simp only [hrp]
      rw [getBorrow_deleteBorrow_self st2 bor]
      have h0 : Coins.amountOf (Coins.sub bor.amount
          (calculatePaymentAmount bor.amount coins)) d = 0 := by
        rw [hsubnil]
        rfl
      rw [Coins.amountOf_sub] at h0
      have hred : ((none : Option Borrow).map
          (fun (b : Borrow) => Coins.amountOf b.amount d)).getD 0 = (0 : Int) := rfl
      rw [hred]
      omega
  · have hrp : repay st0 payer bor.borrower coins
        = (setBorrow st2
            { bor with
              amount := Coins.sub bor.amount (calculatePaymentAmount bor.amount coins) },
            none) := by
      simp [repay, hbor, hfind1, hfind2, hsend, hemp]
    refine ⟨by rw [hrp], fun d hd => calculatePaymentAmount_amountOf hnd hd, ?_, ?_, ?_⟩
    · intro d
      simp only [hrp]
      have hk : getAccountCoins (setBorrow st2
          { bor with
            amount := Coins.sub bor.amount (calculatePaymentAmount bor.amount coins) })
          payer = getAccountCoins st2 payer := rfl
      rw [hk, hacct2, hsafe1, Coins.amountOf_sub]
    · intro d
      simp only [hrp]
      have hk : (setBorrow st2
          { bor with
            amount := Coins.sub bor.amount (calculatePaymentAmount bor.amount coins)
          }).moduleCoins = st2.moduleCoins := rfl
      rw [hk, hframe.2.2.2.2.2.2.2.1, Coins.amountOf_add]
    · intro d
      simp only [hrp]
      have hset := getBorrow_setBorrow_self st2
        { bor with
          amount := Coins.sub bor.amount (calculatePaymentAmount bor.amount coins) }
      rw [show ({ bor with
          amount := Coins.sub bor.amount (calculatePaymentAmount bor.amount coins) } :
          Borrow).borrower = bor.borrower from rfl] at hset
      rw [hset]
      have hred : ((some ({ bor with
          amount := Coins.sub bor.amount (calculatePaymentAmount bor.amount coins) } :
          Borrow)).map (fun (b : Borrow) => Coins.amountOf b.amount d)).getD 0
          = Coins.amountOf (Coins.sub bor.amount
            (calculatePaymentAmount bor.amount coins)) d := rfl
      rw [hred, Coins.amountOf_sub]

/-- C7 (code evaluation at the failing input): with a `ukava` money market
configured but an empty `LiquidityProviderSchedules` list — exactly the
genesis shape `TestRepay` sets up, which requires this deposit to succeed —
`ValidateDeposit` rejects `ukava` with `ErrInvalidDepositDenom`, because it
checks the liquidity-provider schedule denoms instead of the money-market
denoms. -/
theorem c7_validate_deposit_ignores_money_markets :
    getMoneyMarket stValEmpty "ukava" = some (mkMoneyMarket "ukava" "kava:usd" 1) ∧
    validateDeposit stValEmpty [⟨"ukava", 100⟩]
      = some (.invalidDepositDenom "ukava") := by
  constructor
  · rfl
  · rfl

/-- Concrete evaluation: the two interest syncs are a no-op on a state with
no records. -/
theorem stValEmpty_syncs_eval :
    syncSupplyInterest (syncBorrowInterest stValEmpty "alice") "alice"
      = stValEmpty := rfl

/-- Concrete evaluation: on `stLtv` the syncs only create the missing index
entries (at the absent, hence zero, stored factors). -/
theorem stLtv_syncs_eval :
    syncSupplyInterest (syncBorrowInterest stLtv "alice") "alice"
      = stLtvSynced := rfl

/-- Concrete evaluation: the stored risk standing of `alice` in `stLtv` is
90/100. -/
theorem getStoreLTV_stLtv_eval :
    getStoreLTV stLtv "alice" = .ok (9/10, false) := by
  norm_num [getStoreLTV, getDeposit, getBorrow, keyedGet, List.find?, stLtv,
    mkMoneyMarket, getAssetValue, getMoneyMarket, getPrice]

/-- Concrete evaluation: the stored risk standing of `alice` in
`stLtvPending` is 90/100 (computed on the stale records). -/
theorem getStoreLTV_stLtvPending_eval :
    getStoreLTV stLtvPending "alice" = .ok (9/10, false) := by
  norm_num [getStoreLTV, getDeposit, getBorrow, keyedGet, List.find?, stLtvPending,
    mkMoneyMarket, getAssetValue, getMoneyMarket, getPrice]

theorem syncBorrowInterest_of_some {st : HardState} {addr : Addr} {bor : Borrow}
    (h : getBorrow st addr = some bor) :
    syncBorrowInterest st addr = setBorrow st
      { bor with
        amount := Coins.add bor.amount
          (bor.amount.foldl (syncBorrowStep st bor.amount) (bor.index, [])).2,
        index := (bor.amount.foldl (syncBorrowStep st bor.amount) (bor.index, [])).1 } := by
  unfold syncBorrowInterest
  rw [h]

/-- Evaluation helper: the sync fold over a single-coin deposit whose only
index entry matches. -/
theorem syncFold_singleton (st : HardState) (d : Denom) (a i : Int) (snap : ℚ)
    (hi : decTruncateInt ((a : ℚ) / snap * supplyFactorOf st d - (a : ℚ)) = i) :
    List.foldl (syncStep st [⟨d, a⟩]) ([⟨d, snap⟩], []) [⟨d, a⟩]
      = ([⟨d, supplyFactorOf st d⟩], Coins.add [] [⟨d, i⟩]) := by
  simp only [List.foldl_cons, List.foldl_nil]
  unfold syncStep
  rw [show indexValue [(⟨d, snap⟩ : SupplyInterestFactor)] d = some snap from by
    simp [indexValue, List.find?]]
  simp only
  rw [show Coins.amountOf [(⟨d, a⟩ : Coin)] d = a from by
    simp [Coins.amountOf, List.find?]]
  rw [hi]
  rw [show indexSetValue [(⟨d, snap⟩ : SupplyInterestFactor)] d (supplyFactorOf st d)
    = [⟨d, supplyFactorOf st d⟩] from by simp [indexSetValue]]

/-- Borrow-side mirror of `syncFold_singleton`. -/
theorem syncBorrowFold_singleton (st : HardState) (d : Denom) (a i : Int) (snap : ℚ)
    (hi : decTruncateInt ((a : ℚ) / snap * borrowFactorOf st d - (a : ℚ)) = i) :
    List.foldl (syncBorrowStep st [⟨d, a⟩]) ([⟨d, snap⟩], []) [⟨d, a⟩]
      = ([⟨d, borrowFactorOf st d⟩], Coins.add [] [⟨d, i⟩]) := by
  simp only [List.foldl_cons, List.foldl_nil]
  unfold syncBorrowStep
  rw [show borrowIndexValue [(⟨d, snap⟩ : BorrowInterestFactor)] d = some snap from by
    simp [borrowIndexValue, List.find?]]
  simp only
  rw [show Coins.amountOf [(⟨d, a⟩ : Coin)] d = a from by
    simp [Coins.amountOf, List.find?]]
  rw [hi]
  rw [show borrowIndexSetValue [(⟨d, snap⟩ : BorrowInterestFactor)] d (borrowFactorOf st d)
    = [⟨d, borrowFactorOf st d⟩] from by simp [borrowIndexSetValue]]

/-- Concrete evaluation: the two interest syncs on `stLtvPending` accrue
100 `uA` of supply interest and refresh both index snapshots. -/
theorem stLtvPending_syncs_eval :
    syncSupplyInterest (syncBorrowInterest stLtvPending "alice") "alice"
      = stLtvPendingSynced := by
  have hB : syncBorrowInterest stLtvPending "alice" = stLtvPending := by
    rw [syncBorrowInterest_of_some (show getBorrow stLtvPending "alice"
      = some ⟨"alice", [⟨"uA", 90⟩], [⟨"uA", 1⟩]⟩ from rfl)]
    rw [syncBorrowFold_singleton stLtvPending "uA" 90 0 1 (by
      rw [show borrowFactorOf stLtvPending "uA" = 1 from rfl]
      rw [show ((90 : Int) : ℚ) / 1 * 1 - ((90 : Int) : ℚ) = 0 by norm_num]
      exact decTruncateInt_zero)]
    rw [show Coins.add [(⟨"uA", 90⟩ : Coin)] (Coins.add [] [⟨"uA", 0⟩])
      = [⟨"uA", 90⟩] from by decide]
    rw [show borrowFactorOf stLtvPending "uA" = 1 from rfl]
    rfl
  rw [hB]
  rw [syncSupplyInterest_of_some (show getDeposit stLtvPending "alice"
    = some ⟨"alice", [⟨"uA", 100⟩], [⟨"uA", 1⟩]⟩ from rfl)]
  rw [syncFold_singleton stLtvPending "uA" 100 100 1 (by
    rw [show supplyFactorOf stLtvPending "uA" = 2 from rfl]
    rw [show ((100 : Int) : ℚ) / 1 * 2 - ((100 : Int) : ℚ) = 100 by norm_num]
    unfold decTruncateInt
    norm_num)]
  rw [show Coins.add [(⟨"uA", 100⟩ : Coin)] (Coins.add [] [⟨"uA", 100⟩])
    = [⟨"uA", 200⟩] from by decide]
  rw [show supplyFactorOf stLtvPending "uA" = 2 from rfl]
  rfl

/-- Witness for C10 at `stValEmpty`, which has no deposit for `alice`. -/
theorem c10_witness : syncSupplyInterest stValEmpty "alice" = stValEmpty :=
  c10_sync_without_deposit_is_noop stValEmpty "alice" rfl

/-- Witness for C4 at `stC3`: a second sync of `alice`'s deposit changes
nothing. -/
theorem c4_witness :
    getDeposit (syncSupplyInterest (syncSupplyInterest stC3 "alice") "alice") "alice"
      = getDeposit (syncSupplyInterest stC3 "alice") "alice" :=
  c4_sync_idempotent stC3 "alice" ⟨"alice", [⟨"uA", 100⟩], [⟨"uA", 1⟩]⟩ rfl
    (by decide)
    (by
      intro c hc
      have hceq : c = ⟨"uA", 100⟩ := by simpa using hc
      subst hceq
      exact ⟨2, rfl, by norm_num⟩)

/-- Witness for C3 at `stC3`: syncing a deposit of 100 `uA` whose snapshot
is 1 against a current factor of 2 yields `100 + (⌊100/1*2⌋ - 100)` and
moves the snapshot to 2. -/
theorem c3_witness :
    ∃ dep2, getDeposit (syncSupplyInterest stC3 "alice") "alice" = some dep2 ∧
      Coins.amountOf dep2.amount "uA"
        = Coins.amountOf [(⟨"uA", 100⟩ : Coin)] "uA"
          + (⌊(Coins.amountOf [(⟨"uA", 100⟩ : Coin)] "uA" : ℚ) / 1 * 2⌋
             - Coins.amountOf [(⟨"uA", 100⟩ : Coin)] "uA") ∧
      indexValue dep2.index "uA" = some 2 := by
  obtain ⟨dep2, hget, hentry, _⟩ := c3_sync_accrual_formula stC3 "alice"
    ⟨"alice", [⟨"uA", 100⟩], [⟨"uA", 1⟩]⟩ rfl (by decide) ⟨"uA", 100⟩ (by decide)
    2 rfl (by decide)
  obtain ⟨h1, h2⟩ := hentry 1 rfl (by norm_num) (by norm_num)
  exact ⟨dep2, hget, h1, h2⟩

/-- Counterexample to the original C1 wording: a failing `Deposit` call
does not leave the store untouched — the factor initialization persists. -/
theorem c1_counterexample :
    (deposit stValEmpty "alice" [⟨"ukava", 5⟩]).2
      = some (.invalidDepositDenom "ukava") ∧
    (deposit stValEmpty "alice" [⟨"ukava", 5⟩]).1 ≠ stValEmpty :=
  ⟨rfl, by decide⟩

/-- Counterexample to the original C6 wording: a successful full withdrawal
deletes the deposit record but leaves the account's risk-index entry in
place. -/
theorem c6_counterexample :
    (withdraw stStaleIndex "alice" [⟨"uA", 100⟩]).2 = none ∧
    getDeposit (withdraw stStaleIndex "alice" [⟨"uA", 100⟩]).1 "alice" = none ∧
    (withdraw stStaleIndex "alice" [⟨"uA", 100⟩]).1.ltvIndex = [(0, "alice")] :=
  ⟨rfl, rfl, rfl⟩

/-- Counterexample to the original C8 wording: after a partial withdrawal
that empties one asset, the remaining deposit record keeps an index entry
for the no-longer-held `uA`. -/
theorem c8_counterexample :
    (withdraw stTwoAsset "alice" [⟨"uA", 100⟩]).2 = none ∧
    getDeposit (withdraw stTwoAsset "alice" [⟨"uA", 100⟩]).1 "alice"
      = some ⟨"alice", [⟨"uB", 50⟩], [⟨"uA", 0⟩, ⟨"uB", 0⟩]⟩ ∧
    Coins.amountOf [(⟨"uB", 50⟩ : Coin)] "uA" = 0 :=
  ⟨rfl, rfl, rfl⟩

/-- Witness for C9 at `stFresh`: the first deposit of the freshly activated
`ukava` market initializes the global factor to 1, stamps the new index
entry at 1, and an immediate re-sync leaves the balance unchanged. -/
theorem c9_witness :
    (deposit stFresh "alice" [⟨"ukava", 10⟩]).2 = none ∧
    getSupplyInterestFactor (deposit stFresh "alice" [⟨"ukava", 10⟩]).1 "ukava"
      = some 1 ∧
    (∃ dep2, getDeposit (deposit stFresh "alice" [⟨"ukava", 10⟩]).1 "alice"
        = some dep2 ∧
      dep2.amount = [⟨"ukava", 10⟩] ∧ indexValue dep2.index "ukava" = some 1) ∧
    (∃ dep3, getDeposit (syncSupplyInterest
          (deposit stFresh "alice" [⟨"ukava", 10⟩]).1 "alice") "alice"
        = some dep3 ∧
      Coins.amountOf dep3.amount "ukava"
        = Coins.amountOf [(⟨"ukava", 10⟩ : Coin)] "ukava") :=
  c9_fresh_asset_initialization stFresh "alice" [⟨"ukava", 10⟩] "ukava"
    (mkMoneyMarket "ukava" "kava:usd" 1) (0, true) stFreshSent rfl rfl
    ⟨⟨"ukava", 10⟩, by decide, rfl⟩ rfl (by decide) rfl rfl rfl

/-- Witness for C1 on five concrete error paths: invalid deposit denom,
deposit transfer failure on insufficient funds, missing deposit record,
over-withdrawal, and LTV violation; each returns exactly the synced
state. -/
theorem c1_witness :
    deposit stValEmpty "alice" [⟨"ukava", 5⟩]
      = (syncSupplyInterest (syncBorrowInterest
          (initSupplyFactors stValEmpty [⟨"ukava", 5⟩]) "alice") "alice",
         some (.invalidDepositDenom "ukava")) ∧
    deposit stFresh "alice" [⟨"ukava", 60⟩]
      = (syncSupplyInterest (syncBorrowInterest
          (initSupplyFactors stFresh [⟨"ukava", 60⟩]) "alice") "alice",
         some (.borrowExceedsAvailableBalance "ukava")) ∧
    withdraw stValEmpty "alice" [⟨"ukava", 5⟩]
      = (syncSupplyInterest (syncBorrowInterest stValEmpty "alice") "alice",
         some (.depositNotFound "alice")) ∧
    withdraw stOneDeposit "alice" [⟨"uA", 200⟩]
      = (syncSupplyInterest (syncBorrowInterest stOneDeposit "alice") "alice",
         some .negativeBorrowedCoins) ∧
    withdraw stLtv "alice" [⟨"uA", 60⟩]
      = (stLtvSynced, some .invalidWithdrawAmount) := by
  have h4 : isWithinValidLtvRange
      (syncSupplyInterest (syncBorrowInterest stLtv "alice") "alice")
      ⟨"alice", (Coins.safeSub [⟨"uA", 100⟩] [⟨"uA", 60⟩]).1, []⟩
      ((getBorrow (syncSupplyInterest (syncBorrowInterest stLtv "alice") "alice")
        "alice").getD ⟨"", [], []⟩) = .ok false := by
    rw [stLtv_syncs_eval]
    norm_num [isWithinValidLtvRange, getAssetValue, getMoneyMarket, getPrice,
      keyedGet, List.find?, stLtvSynced, mkMoneyMarket, effectiveLtvLimit,
      Coins.safeSub, Coins.add, Coins.ofFun, Coins.negate, Coins.denomList,
      Coins.amountOf, getBorrow]
  exact ⟨(c1_error_paths_return_synced_state stValEmpty "alice" [⟨"ukava", 5⟩]).1
      (0, true) (.invalidDepositDenom "ukava") rfl rfl,
    (c1_error_paths_return_synced_state stFresh "alice" [⟨"ukava", 60⟩]).2.1
      (0, true) .insufficientAccountFunds rfl rfl rfl,
    (c1_error_paths_return_synced_state stValEmpty "alice" [⟨"ukava", 5⟩]).2.2.1
      (0, true) rfl rfl,
    (c1_error_paths_return_synced_state stOneDeposit "alice" [⟨"uA", 200⟩]).2.2.2.1
      (0, true) ⟨"alice", [⟨"uA", 100⟩], [⟨"uA", 0⟩]⟩ rfl rfl rfl,
    (c1_error_paths_return_synced_state stLtv "alice" [⟨"uA", 60⟩]).2.2.2.2
      (9/10, false) ⟨"alice", [⟨"uA", 100⟩], [⟨"uA", 0⟩]⟩ getStoreLTV_stLtv_eval
      rfl rfl h4⟩

/-- Witness for C6: at `stStaleIndex` a full withdrawal of the 100 `uA`
deletes the record (leaving the risk index untouched), while a partial
withdrawal of 30 `uA` subtracts and persists. -/
theorem c6_witness :
    (withdraw stStaleIndex "alice" [⟨"uA", 100⟩]
        = (deleteDeposit stStaleSent ⟨"alice", [⟨"uA", 100⟩], [⟨"uA", 0⟩]⟩, none) ∧
      getDeposit (deleteDeposit stStaleSent
          ⟨"alice", [⟨"uA", 100⟩], [⟨"uA", 0⟩]⟩) "alice" = none ∧
      (deleteDeposit stStaleSent ⟨"alice", [⟨"uA", 100⟩], [⟨"uA", 0⟩]⟩).ltvIndex
        = stStaleIndex.ltvIndex) ∧
    (withdraw stStaleIndex "alice" [⟨"uA", 30⟩]
        = (updateItemInLtvIndex (setDeposit stStalePartialSent
            ⟨"alice", [⟨"uA", 70⟩], [⟨"uA", 0⟩]⟩) 0 true "alice", none) ∧
      getDeposit (updateItemInLtvIndex (setDeposit stStalePartialSent
          ⟨"alice", [⟨"uA", 70⟩], [⟨"uA", 0⟩]⟩) 0 true "alice") "alice"
        = some ⟨"alice", [⟨"uA", 70⟩], [⟨"uA", 0⟩]⟩) := by
  refine ⟨(c6_withdraw_delete_or_subtract stStaleIndex "alice" [⟨"uA", 100⟩]
      (0, true) ⟨"alice", [⟨"uA", 100⟩], [⟨"uA", 0⟩]⟩ stStaleSent
      rfl rfl rfl rfl rfl).1 rfl, ?_⟩
  exact (c6_withdraw_delete_or_subtract stStaleIndex "alice" [⟨"uA", 30⟩]
      (0, true) ⟨"alice", [⟨"uA", 100⟩], [⟨"uA", 0⟩]⟩ stStalePartialSent
      rfl rfl rfl rfl rfl).2 rfl

/-- Witness for C8: index coverage after a plain sync, after a deposit
merge, and after a partial withdrawal at `stOneDeposit`. -/
theorem c8_witness :
    (∃ e ∈ (⟨"alice", [⟨"uA", 100⟩], [⟨"uA", 0⟩]⟩ : Deposit).index,
      e.denom = ("uA" : Denom)) ∧
    (deposit stOneDeposit "alice" [⟨"uA", 50⟩]).2 = none ∧
    (∃ e ∈ (⟨"alice", [⟨"uA", 150⟩], [⟨"uA", 1⟩]⟩ : Deposit).index,
      e.denom = ("uA" : Denom)) ∧
    (withdraw stOneDeposit "alice" [⟨"uA", 40⟩]).2 = none ∧
    (∃ e ∈ (⟨"alice", [⟨"uA", 60⟩], [⟨"uA", 0⟩]⟩ : Deposit).index,
      e.denom = ("uA" : Denom)) := by
  obtain ⟨p1, p2, p3⟩ := c8_every_held_asset_has_index_entry
  refine ⟨?_, ?_, ?_, rfl, ?_⟩
  · exact p1 stOneDeposit "alice" ⟨"alice", [⟨"uA", 100⟩], [⟨"uA", 0⟩]⟩ rfl
      ⟨"uA", 100⟩ (by decide)
  · exact (p2 stOneDeposit "alice" [⟨"uA", 50⟩] (0, true) stOneDepositSent
      rfl rfl rfl).1
  · exact (p2 stOneDeposit "alice" [⟨"uA", 50⟩] (0, true) stOneDepositSent
      rfl rfl rfl).2 ⟨"alice", [⟨"uA", 150⟩], [⟨"uA", 1⟩]⟩ rfl ⟨"uA", 150⟩ (by decide)
  · exact p3 stOneDeposit "alice" [⟨"uA", 40⟩] (0, true)
      ⟨"alice", [⟨"uA", 100⟩], [⟨"uA", 0⟩]⟩ stOneDepositWithdrawn
      rfl rfl rfl rfl rfl (by decide)
      ⟨"alice", [⟨"uA", 60⟩], [⟨"uA", 0⟩]⟩ rfl ⟨"uA", 60⟩ (by decide)

/-- Witness for C5: `bob` owes 50 `uA` and requests a repayment of 60; the
payment is capped at 50, the call succeeds, and balances move by exactly
the capped amount. -/
theorem c5_witness :
    (repay stRepay "bob" "bob" [⟨"uA", 60⟩]).2 = none ∧
    Coins.amountOf (calculatePaymentAmount [(⟨"uA", 50⟩ : Coin)] [⟨"uA", 60⟩]) "uA"
      = min (Coins.amountOf [(⟨"uA", 60⟩ : Coin)] "uA")
          (Coins.amountOf [(⟨"uA", 50⟩ : Coin)] "uA") ∧
    ((getBorrow (repay stRepay "bob" "bob" [⟨"uA", 60⟩]).1 "bob").map
        (fun b => Coins.amountOf b.amount "uA")).getD 0
      = Coins.amountOf [(⟨"uA", 50⟩ : Coin)] "uA"
        - Coins.amountOf (calculatePaymentAmount [(⟨"uA", 50⟩ : Coin)] [⟨"uA", 60⟩])
            "uA" := by
  obtain ⟨h1, h2, _, _, h5⟩ := c5_repay_caps_payment_at_owed stRepay "bob" "bob"
    [⟨"uA", 60⟩] ⟨"bob", [⟨"uA", 50⟩], [⟨"uA", 0⟩]⟩ stRepaySent (by decide) rfl
    (by decide) (by decide) rfl
  exact ⟨h1, h2 "uA" (by decide), h5 "uA"⟩

/-- Counterexample to the original C2 wording: the LTV-rejected withdrawal
does not return the pre-call state — the sync-created index entries
persist. -/
theorem c2_counterexample :
    (withdraw stLtv "alice" [⟨"uA", 50⟩]).2 = some .invalidWithdrawAmount ∧
    (withdraw stLtv "alice" [⟨"uA", 50⟩]).1.deposits ≠ stLtv.deposits := by
  have h2 : getDeposit stLtvSynced "alice"
      = some ⟨"alice", [⟨"uA", 100⟩], [⟨"uA", 0⟩]⟩ := rfl
  have h3 : Coins.safeSub [(⟨"uA", 100⟩ : Coin)] [⟨"uA", 50⟩]
      = ([⟨"uA", 50⟩], false) := by decide
  have h4 : isWithinValidLtvRange stLtvSynced ⟨"alice", [⟨"uA", 50⟩], []⟩
      ((getBorrow stLtvSynced "alice").getD ⟨"", [], []⟩) = .ok false := by
    norm_num [isWithinValidLtvRange, getAssetValue, getMoneyMarket, getPrice,
      keyedGet, List.find?, stLtvSynced, mkMoneyMarket, effectiveLtvLimit,
      Coins.amountOf, getBorrow]
  have hw : withdraw stLtv "alice" [⟨"uA", 50⟩]
      = (stLtvSynced, some .invalidWithdrawAmount) := by
    simp [withdraw, getStoreLTV_stLtv_eval, stLtv_syncs_eval, h2, h3, h4]
  rw [hw]
  exact ⟨rfl, by decide⟩

/-- Witness for C2: at `stLtvPending` (interest pending) both the
over-withdrawal and the over-borrow fail the solvency check and return the
synced state `stLtvPendingSynced`. -/
theorem c2_witness :
    withdraw stLtvPending "alice" [⟨"uA", 150⟩]
      = (stLtvPendingSynced, some .invalidWithdrawAmount) ∧
    borrowOp stLtvPending "alice" [⟨"uA", 200⟩]
      = (stLtvPendingSynced, some .invalidBorrowAmount) := by
  have hdep : getDeposit (syncSupplyInterest
        (syncBorrowInterest stLtvPending "alice") "alice") "alice"
      = some ⟨"alice", [⟨"uA", 200⟩], [⟨"uA", 2⟩]⟩ := by
    rw [stLtvPending_syncs_eval]
    rfl
  have hbv : getAssetValue (syncSupplyInterest
        (syncBorrowInterest stLtvPending "alice") "alice")
      ((getBorrow (syncSupplyInterest
        (syncBorrowInterest stLtvPending "alice") "alice") "alice").getD
        ⟨"", [], []⟩).amount = .ok 90 := by
    rw [stLtvPending_syncs_eval]
    norm_num [getAssetValue, getMoneyMarket, getPrice, keyedGet, List.find?,
      stLtvPendingSynced, mkMoneyMarket, getBorrow]
  have hdv : getAssetValue (syncSupplyInterest
        (syncBorrowInterest stLtvPending "alice") "alice")
      (Coins.safeSub [(⟨"uA", 200⟩ : Coin)] [⟨"uA", 150⟩]).1 = .ok 50 := by
    rw [stLtvPending_syncs_eval]
    rw [show (Coins.safeSub [(⟨"uA", 200⟩ : Coin)] [⟨"uA", 150⟩]).1
      = [⟨"uA", 50⟩] from by decide]
    norm_num [getAssetValue, getMoneyMarket, getPrice, keyedGet, List.find?,
      stLtvPendingSynced, mkMoneyMarket]
  have hlt : (50 : ℚ) * effectiveLtvLimit (syncSupplyInterest
        (syncBorrowInterest stLtvPending "alice") "alice")
      (Coins.safeSub [(⟨"uA", 200⟩ : Coin)] [⟨"uA", 150⟩]).1 < 90 := by
    rw [stLtvPending_syncs_eval]
    rw [show (Coins.safeSub [(⟨"uA", 200⟩ : Coin)] [⟨"uA", 150⟩]).1
      = [⟨"uA", 50⟩] from by decide]
    norm_num [effectiveLtvLimit, getMoneyMarket, keyedGet, List.find?,
      stLtvPendingSynced, mkMoneyMarket]
  have hvb : validateBorrow (syncSupplyInterest
        (syncBorrowInterest stLtvPending "alice") "alice") [⟨"uA", 200⟩] = none := by
    rw [stLtvPending_syncs_eval]
    rfl
  have hbv2 : getAssetValue (syncSupplyInterest
        (syncBorrowInterest stLtvPending "alice") "alice")
      (Coins.add ((getBorrow (syncSupplyInterest
        (syncBorrowInterest stLtvPending "alice") "alice") "alice").getD
        ⟨"alice", [], []⟩).amount [⟨"uA", 200⟩]) = .ok 290 := by
    rw [stLtvPending_syncs_eval]
    rw [show Coins.add ((getBorrow stLtvPendingSynced "alice").getD
        ⟨"alice", [], []⟩).amount [⟨"uA", 200⟩] = [⟨"uA", 290⟩] from by decide]
    norm_num [getAssetValue, getMoneyMarket, getPrice, keyedGet, List.find?,
      stLtvPendingSynced, mkMoneyMarket]
  have hdv2 : getAssetValue (syncSupplyInterest
        (syncBorrowInterest stLtvPending "alice") "alice")
      ((getDeposit (syncSupplyInterest
        (syncBorrowInterest stLtvPending "alice") "alice") "alice").getD
        ⟨"alice", [], []⟩).amount = .ok 200 := by
    rw [stLtvPending_syncs_eval]
    rw [show ((getDeposit stLtvPendingSynced "alice").getD
        ⟨"alice", [], []⟩).amount = [⟨"uA", 200⟩] from rfl]
    norm_num [getAssetValue, getMoneyMarket, getPrice, keyedGet, List.find?,
      stLtvPendingSynced, mkMoneyMarket]
  have hlt2 : (200 : ℚ) * effectiveLtvLimit (syncSupplyInterest
        (syncBorrowInterest stLtvPending "alice") "alice")
      ((getDeposit (syncSupplyInterest
        (syncBorrowInterest stLtvPending "alice") "alice") "alice").getD
        ⟨"alice", [], []⟩).amount < 290 := by
    rw [stLtvPending_syncs_eval]
    rw [show ((getDeposit stLtvPendingSynced "alice").getD
        ⟨"alice", [], []⟩).amount = [⟨"uA", 200⟩] from rfl]
    norm_num [effectiveLtvLimit, getMoneyMarket, keyedGet, List.find?,
      stLtvPendingSynced, mkMoneyMarket]
  constructor
  · rw [← stLtvPending_syncs_eval]
    exact (c2_ltv_violation_fails_with_synced_state stLtvPending "alice"
        [⟨"uA", 150⟩]).1 (9/10, false) ⟨"alice", [⟨"uA", 200⟩], [⟨"uA", 2⟩]⟩ 90 50
      getStoreLTV_stLtvPending_eval hdep (by decide) hbv hdv (by norm_num) hlt
  · rw [← stLtvPending_syncs_eval]
    exact (c2_ltv_violation_fails_with_synced_state stLtvPending "alice"
        [⟨"uA", 200⟩]).2 (9/10, false) 290 200
      getStoreLTV_stLtvPending_eval hvb hbv2 hdv2 (by norm_num) hlt2
